import Mathlib

/-!
Verification of the dyndbclient expression builders, reserved-word resolver,
update compiler and stream cursor processor.

Each definition is a shallow embedding of the corresponding TypeScript
function from the repository; JavaScript runtime values are modelled by the
inductive `Val`, JavaScript `undefined` for optional struct fields by
`Option`, and thrown exceptions by `Except String`.
-/

set_option maxRecDepth 40000

namespace DynDb

/-- Model of a JavaScript runtime value as used by the builders: strings,
numbers (modelled as integers), booleans, arrays, plain objects (association
lists in property-insertion order), `null` and `undefined`. -/
inductive Val where
  | str (s : String)
  | num (n : Int)
  | bool (b : Bool)
  | list (l : List Val)
  | obj (fields : List (String × Val))
  | null
  | undefV

/-! ### Generic JS-style helpers -/

/-- `String.data` distributes over append. -/
theorem data_append (a b : String) : (a ++ b).data = a.data ++ b.data := rfl

/-- Append on strings is injective on the right argument. -/
theorem append_right_inj {p a b : String} (h : p ++ a = p ++ b) : a = b := by
  cases a with
  | mk la =>
    cases b with
    | mk lb =>
      cases p with
      | mk lp =>
        simp only [String.ext_iff] at h ⊢
        have h' : lp ++ la = lp ++ lb := h
        exact List.append_cancel_left h'

/-- Association-list assignment with JavaScript object semantics: an
existing key is overwritten in place, a new key is appended at the end. -/
def objSet (m : List (String × Val)) (k : String) (v : Val) : List (String × Val) :=
  match m with
  | [] => [(k, v)]
  | (k', v') :: rest =>
    if k' = k then (k', v) :: rest else (k', v') :: objSet rest k v

/-- Association-list lookup (JS property read, `undefined` when absent). -/
def objGet (m : List (String × Val)) (k : String) : Val :=
  match m with
  | [] => Val.undefV
  | (k', v') :: rest => if k' = k then v' else objGet rest k

/-- `Array.prototype.join(sep)` / `List.join` over already rendered pieces. -/
def joinSep (sep : String) : List String → String
  | [] => ""
  | [x] => x
  | x :: y :: xs => x ++ sep ++ joinSep sep (y :: xs)

/-! ### Decimal rendering of counters

The builders interpolate `Nat` counters into placeholder strings
(`:value${n}`, `:val${n}`, `#n${n}`); uniqueness of the generated
placeholders reduces to injectivity of the decimal rendering `Nat.repr`,
which we prove here. -/

/-- Reference decimal digit list of a natural number (most significant
digit first), mirroring what `Nat.toDigitsCore` computes. -/
def rep10 (n : Nat) : List Char :=
  if h : n < 10 then [Nat.digitChar n]
  else rep10 (n / 10) ++ [Nat.digitChar (n % 10)]
termination_by n
decreasing_by
  exact Nat.div_lt_self (by omega) (by omega)

/-- Numeric value of a decimal digit character. -/
def charV (c : Char) : Nat := c.toNat - 48

/-- Evaluate a digit list back to the number it denotes. -/
def digitsVal (l : List Char) : Nat := l.foldl (fun a c => 10 * a + charV c) 0

theorem digitsVal_append_single (xs : List Char) (c : Char) :
    digitsVal (xs ++ [c]) = 10 * digitsVal xs + charV c := by
  simp [digitsVal, List.foldl_append]

theorem charV_digitChar {n : Nat} (h : n < 10) : charV (Nat.digitChar n) = n := by
  interval_cases n <;> rfl

theorem digitsVal_rep10 (n : Nat) : digitsVal (rep10 n) = n := by
  induction n using Nat.strong_induction_on with
  | _ n ih =>
    by_cases h : n < 10
    · rw [rep10]
      simp only [h, dite_true]
      simpa [digitsVal] using charV_digitChar h
    · rw [rep10]
      simp only [h, dite_false]
      rw [digitsVal_append_single]
      rw [ih (n / 10) (Nat.div_lt_self (by omega) (by omega))]
      rw [charV_digitChar (Nat.mod_lt _ (by omega))]
      omega

theorem rep10_injective : Function.Injective rep10 := by
  intro a b h
  have ha := digitsVal_rep10 a
  have hb := digitsVal_rep10 b
  rw [← ha, ← hb, h]

theorem toDigitsCore_eq_rep10 (fuel n : Nat) (ds : List Char) (h : n < fuel) :
    Nat.toDigitsCore 10 fuel n ds = rep10 n ++ ds := by
  induction fuel generalizing n ds with
  | zero => omega
  | succ f ih =>
    rw [Nat.toDigitsCore]
    by_cases h10 : n < 10
    · have hz : n / 10 = 0 := Nat.div_eq_of_lt h10
      simp only [hz, if_true]
      rw [rep10]
      simp only [h10, dite_true]
      have : n % 10 = n := Nat.mod_eq_of_lt h10
      rw [this]
      rfl
    · have hz : ¬ (n / 10 = 0) := by
        intro hc
        have := Nat.div_eq_of_lt (by omega : n < 10)
        omega
      have hz' : n / 10 = 0 ↔ False := by simp [hz]
      simp only [hz', if_false]
      have hlt : n / 10 < f := by
        have h1 : n / 10 < n := Nat.div_lt_self (by omega) (by omega)
        omega
      rw [ih (n / 10) (Nat.digitChar (n % 10) :: ds) hlt]
      conv_rhs => rw [rep10]
      simp only [h10, dite_false]
      rw [List.append_assoc]
      rfl

/-- `Nat.repr` (decimal printing, used for every interpolated counter) is
injective: distinct counters always yield distinct placeholder strings. -/
theorem Nat_repr_injective : Function.Injective Nat.repr := by
  intro a b h
  have ha : Nat.repr a = String.mk (rep10 a) := by
    show (Nat.toDigits 10 a).asString = _
    rw [Nat.toDigits, toDigitsCore_eq_rep10 (a + 1) a [] (by omega)]
    simp [List.asString]
  have hb : Nat.repr b = String.mk (rep10 b) := by
    show (Nat.toDigits 10 b).asString = _
    rw [Nat.toDigits, toDigitsCore_eq_rep10 (b + 1) b [] (by omega)]
    simp [List.asString]
  rw [ha, hb] at h
  exact rep10_injective (by simpa [String.ext_iff] using h)

/-! ### Reserved words (`dist/core/reserved-words.js`) -/

/-- The DynamoDB reserved-word vocabulary, as listed in the source (the
source lowercases each entry when building its `Set`). -/
def DYNAMODB_RESERVED_WORDS : List String := [
  "ABORT", "ABSOLUTE", "ACTION", "ADD", "AFTER", "AGENT", "AGGREGATE", "ALL", "ALLOCATE", "ALTER",
  "ANALYZE", "AND", "ANY", "ARCHIVE", "ARE", "ARRAY", "AS", "ASC", "ASCII", "ASENSITIVE",
  "ASSERTION", "ASYMMETRIC", "AT", "ATOMIC", "ATTACH", "ATTRIBUTE", "AUTH", "AUTHORIZATION",
  "AUTHORIZE", "AUTO", "AVG", "BACK", "BACKUP", "BASE", "BATCH", "BEFORE", "BEGIN", "BETWEEN",
  "BIGINT", "BINARY", "BIT", "BLOB", "BLOCK", "BOOLEAN", "BOTH", "BREADTH", "BUCKET", "BULK",
  "BY", "BYTE", "CALL", "CALLED", "CALLING", "CAPACITY", "CASCADE", "CASCADED", "CASE", "CAST",
  "CATALOG", "CHAR", "CHARACTER", "CHECK", "CLASS", "CLOB", "CLOSE", "CLUSTER", "CLUSTERED",
  "CLUSTERING", "CLUSTERS", "COALESCE", "COLLATE", "COLLATION", "COLLECTION", "COLUMN", "COLUMNS",
  "COMBINE", "COMMENT", "COMMIT", "COMPACT", "COMPILE", "COMPRESS", "CONDITION", "CONFLICT",
  "CONNECT", "CONNECTION", "CONSISTENCY", "CONSISTENT", "CONSTRAINT", "CONSTRAINTS",
  "CONSTRUCTOR", "CONSUMED", "CONTINUE", "CONVERT", "COPY", "CORRESPONDING", "COUNT", "COUNTER",
  "CREATE", "CROSS", "CUBE", "CURRENT", "CURSOR", "CYCLE", "DATA", "DATABASE", "DATE", "DATETIME",
  "DAY", "DEALLOCATE", "DEC", "DECIMAL", "DECLARE", "DEFAULT", "DEFERRABLE", "DEFERRED", "DEFINE",
  "DEFINED", "DEFINITION", "DELETE", "DELIMITED", "DEPTH", "DEREF", "DESC", "DESCRIBE",
  "DESCRIPTOR", "DETACH", "DETERMINISTIC", "DIAGNOSTICS", "DIRECTORIES", "DISABLE", "DISCONNECT",
  "DISTINCT", "DISTRIBUTE", "DO", "DOMAIN", "DOUBLE", "DROP", "DUMP", "DURATION", "DYNAMIC",
  "EACH", "ELEMENT", "ELSE", "ELSEIF", "EMPTY", "ENABLE", "END", "EQUAL", "EQUALS", "ERROR",
  "ESCAPE", "ESCAPED", "EVAL", "EVALUATE", "EXCEEDED", "EXCEPT", "EXCEPTION", "EXCEPTIONS",
  "EXCLUSIVE", "EXEC", "EXECUTE", "EXISTS", "EXIT", "EXPLAIN", "EXPLODE", "EXPORT", "EXPRESSION",
  "EXTENDED", "EXTERNAL", "EXTRACT", "FAIL", "FALSE", "FAMILY", "FETCH", "FIELDS", "FILE",
  "FILTER", "FILTERING", "FINAL", "FINISH", "FIRST", "FIXED", "FLATTERN", "FLOAT", "FOR", "FORCE",
  "FOREIGN", "FORMAT", "FORWARD", "FOUND", "FREE", "FROM", "FULL", "FUNCTION", "FUNCTIONS",
  "GENERAL", "GENERATE", "GET", "GLOB", "GLOBAL", "GO", "GOTO", "GRANT", "GREATER", "GROUP",
  "GROUPING", "HANDLER", "HASH", "HAVE", "HAVING", "HEAP", "HIDDEN", "HOLD", "HOUR", "IDENTIFIED",
  "IDENTITY", "IF", "IGNORE", "IMMEDIATE", "IMPORT", "IN", "INCLUDING", "INCLUSIVE", "INCREMENT",
  "INCREMENTAL", "INDEX", "INDEXED", "INDEXES", "INDICATOR", "INFINITE", "INITIALLY", "INLINE",
  "INNER", "INNTER", "INOUT", "INPUT", "INSENSITIVE", "INSERT", "INSTEAD", "INT", "INTEGER",
  "INTERSECT", "INTERVAL", "INTO", "INVALIDATE", "IS", "ISOLATION", "ITEM", "ITEMS", "ITERATE",
  "JOIN", "KEY", "KEYS", "LAG", "LANGUAGE", "LARGE", "LAST", "LATERAL", "LEAD", "LEADING",
  "LEAVE", "LEFT", "LENGTH", "LESS", "LEVEL", "LIKE", "LIMIT", "LIMITED", "LINES", "LIST", "LOAD",
  "LOCAL", "LOCALTIME", "LOCALTIMESTAMP", "LOCATION", "LOCATOR", "LOCK", "LOCKS", "LOG", "LOGED",
  "LONG", "LOOP", "LOWER", "MAP", "MATCH", "MATERIALIZED", "MAX", "MAXLEN", "MEMBER", "MERGE",
  "METHOD", "METRICS", "MIN", "MINUS", "MINUTE", "MISSING", "MOD", "MODE", "MODIFIES", "MODIFY",
  "MODULE", "MONTH", "MULTI", "MULTISET", "NAME", "NAMES", "NATIONAL", "NATURAL", "NCHAR",
  "NCLOB", "NEW", "NEXT", "NO", "NONE", "NOT", "NULL", "NULLIF", "NUMBER", "NUMERIC", "OBJECT",
  "OF", "OFFLINE", "OFFSET", "OLD", "ON", "ONLINE", "ONLY", "OPAQUE", "OPEN", "OPERATOR",
  "OPTION", "OR", "ORDER", "ORDINALITY", "OTHER", "OTHERS", "OUT", "OUTER", "OUTPUT", "OVER",
  "OVERLAPS", "OVERRIDE", "OWNER", "PAD", "PARALLEL", "PARAMETER", "PARAMETERS", "PARTIAL",
  "PARTITION", "PARTITIONED", "PARTITIONS", "PATH", "PERCENT", "PERCENTILE", "PERMISSION",
  "PERMISSIONS", "PIPE", "PIPELINED", "PLAN", "POOL", "POSITION", "PRECISION", "PREPARE",
  "PRESERVE", "PRIMARY", "PRIOR", "PRIVATE", "PRIVILEGES", "PROCEDURE", "PROCESSED", "PROJECT",
  "PROJECTION", "PROPERTY", "PROVISIONING", "PUBLIC", "PUT", "QUERY", "QUIT", "QUORUM", "RAISE",
  "RANDOM", "RANGE", "RANK", "RAW", "READ", "READS", "REAL", "REBUILD", "RECORD", "RECURSIVE",
  "REDUCE", "REF", "REFERENCE", "REFERENCES", "REFERENCING", "REGEXP", "REGION", "REINDEX",
  "RELATIVE", "RELEASE", "REMAINDER", "RENAME", "REPEAT", "REPLACE", "REQUEST", "RESET",
  "RESIGNAL", "RESOURCE", "RESPONSE", "RESTORE", "RESTRICT", "RESULT", "RETURN", "RETURNING",
  "RETURNS", "REVERSE", "REVOKE", "RIGHT", "ROLE", "ROLES", "ROLLBACK", "ROLLUP", "ROUTINE",
  "ROW", "ROWS", "RULE", "RULES", "SAMPLE", "SATISFIES", "SAVE", "SAVEPOINT", "SCAN", "SCHEMA",
  "SCOPE", "SCROLL", "SEARCH", "SECOND", "SECTION", "SEGMENT", "SEGMENTS", "SELECT", "SELF",
  "SEMI", "SENSITIVE", "SEPARATE", "SEQUENCE", "SERIALIZABLE", "SESSION", "SET", "SETS", "SHARD",
  "SHARE", "SHARED", "SHORT", "SHOW", "SIGNAL", "SIMILAR", "SIZE", "SKEWED", "SMALLINT",
  "SNAPSHOT", "SOME", "SOURCE", "SPACE", "SPACES", "SPARSE", "SPECIFIC", "SPECIFICTYPE", "SPLIT",
  "SQL", "SQLCODE", "SQLERROR", "SQLEXCEPTION", "SQLSTATE", "SQLWARNING", "START", "STATE",
  "STATIC", "STATUS", "STORAGE", "STORE", "STORED", "STREAM", "STRING", "STRUCT", "STYLE", "SUB",
  "SUBMULTISET", "SUBPARTITION", "SUBSTRING", "SUBTYPE", "SUM", "SUPER", "SYMMETRIC", "SYNONYM",
  "SYSTEM", "TABLE", "TABLESAMPLE", "TEMP", "TEMPORARY", "TERMINATED", "TEXT", "THAN", "THEN",
  "THROUGHPUT", "TIME", "TIMESTAMP", "TIMEZONE", "TINYINT", "TO", "TOKEN", "TOTAL", "TOUCH",
  "TRAILING", "TRANSACTION", "TRANSFORM", "TRANSLATE", "TRANSLATION", "TREAT", "TRIGGER", "TRIM",
  "TRUE", "TRUNCATE", "TTL", "TUPLE", "TYPE", "UNDER", "UNDO", "UNION", "UNIQUE", "UNIT",
  "UNKNOWN", "UNLOGGED", "UNNEST", "UNPROCESSED", "UNSIGNED", "UNTIL", "UPDATE", "UPPER", "URL",
  "USAGE", "USE", "USER", "USERS", "USING", "UUID", "VACUUM", "VALUE", "VALUED", "VALUES",
  "VARCHAR", "VARIABLE", "VARIANCE", "VARINT", "VARYING", "VIEW", "VIEWS", "VIRTUAL", "VOID",
  "WAIT", "WHEN", "WHENEVER", "WHERE", "WHILE", "WINDOW", "WITH", "WITHIN", "WITHOUT", "WORK",
  "WRAPPED", "WRITE", "YEAR", "ZONE"
]

/-- ASCII lowercasing, modelling `String.prototype.toLowerCase` on the
ASCII-only inputs this library handles. -/
def strLower (s : String) : String := String.mk (s.data.map Char.toLower)

/-- The lowercased reserved-word set (`new Set([...].map(w => w.toLowerCase()))`). -/
def reservedLowerList : List String := DYNAMODB_RESERVED_WORDS.map strLower

/-- `ExpressionAttributeHandler.isReservedWord` / `ReservedWords.isReserved`:
case-insensitive membership in the reserved vocabulary. -/
def isReservedWord (attributeName : String) : Bool :=
  reservedLowerList.contains (strLower attributeName)

/-! ### Generic association-list helpers (JS `Map` / object semantics) -/

/-- Lookup in an association list (JS `Map.get` / object read). -/
def assocGet? {α : Type} (m : List (String × α)) (k : String) : Option α :=
  match m with
  | [] => none
  | (k', v) :: rest => if k' = k then some v else assocGet? rest k

/-- Assignment in an association list with JS semantics: overwrite in place
when the key exists, append otherwise. -/
def assocSet {α : Type} (m : List (String × α)) (k : String) (v : α) : List (String × α) :=
  match m with
  | [] => [(k, v)]
  | (k', v') :: rest => if k' = k then (k', v) :: rest else (k', v') :: assocSet rest k v

/-- JS `String.prototype.split(sep)` for a one-character separator. -/
def splitCharAux (sep : Char) : List Char → List Char → List (List Char)
  | [], acc => [acc.reverse]
  | c :: cs, acc =>
    if c = sep then acc.reverse :: splitCharAux sep cs []
    else splitCharAux sep cs (c :: acc)

/-- Split a string on a separator character, JS style. -/
def splitChar (sep : Char) (s : String) : List String :=
  (splitCharAux sep s.data []).map String.mk

/-- The `:value{n}` placeholder interpolated for counter value `n`. -/
def scanKeyOfIdx (n : Nat) : String := ":value" ++ Nat.repr n

/-- The `#n{k}` placeholder interpolated for name-map size (or resolver
counter) `k`. -/
def nameKeyOfIdx (k : Nat) : String := "#n" ++ Nat.repr k

/-! ### `ExpressionAttributeHandler` (`dist/core/reserved-words.js`) -/

/-- The mutable state of one `ExpressionAttributeHandler` instance:
`expressionAttributeNames` maps placeholder → original name,
`attributeNameMap` memoizes original name → placeholder, and `nameCount`
is the monotonically increasing placeholder counter. -/
structure AttrState where
  expressionAttributeNames : List (String × String)
  attributeNameMap : List (String × String)
  nameCount : Nat

/-- A freshly constructed `ExpressionAttributeHandler`. -/
def AttrState.init : AttrState := ⟨[], [], 0⟩

/-- Process one dot-separated segment of an attribute path: a reserved word
or a segment containing a hyphen or space is assigned (or re-uses) a
`#n{K}` placeholder; anything else passes through unchanged. -/
def processPart (st : AttrState) (part : String) : String × AttrState :=
  if isReservedWord part || part.data.contains '-' || part.data.contains ' ' then
    match assocGet? st.attributeNameMap part with
    | some placeholder => (placeholder, st)
    | none =>
      let placeholder := nameKeyOfIdx (st.nameCount + 1)
      (placeholder,
        { expressionAttributeNames := assocSet st.expressionAttributeNames placeholder part,
          attributeNameMap := assocSet st.attributeNameMap part placeholder,
          nameCount := st.nameCount + 1 })
  else (part, st)

/-- `ExpressionAttributeHandler.getExpressionAttributeName`: split the path
on `.`, process each segment, and rejoin with `.`. -/
def getExpressionAttributeName (st : AttrState) (attributeName : String) :
    String × AttrState :=
  let parts := splitChar '.' attributeName
  let r := parts.foldl
    (fun (acc : List String × AttrState) part =>
      (acc.1 ++ [(processPart acc.2 part).1], (processPart acc.2 part).2)) ([], st)
  (joinSep "." r.1, r.2)

/-- `ExpressionAttributeHandler.getExpressionAttributeNames`: the
accumulated placeholder map, or `undefined` when nothing was substituted. -/
def AttrState.getNames (st : AttrState) : Option (List (String × String)) :=
  if st.expressionAttributeNames.length > 0 then some st.expressionAttributeNames else none

/-! ### The regular expressions of `processKeyConditionExpression` -/

/-- JS `\w`: ASCII letter, digit or underscore. -/
def isWordChar (c : Char) : Bool := c.isAlphanum || c = '_'

/-- First character class `[a-zA-Z_]` of the tokenizer regex. -/
def isWordStart (c : Char) : Bool := c.isAlpha || c = '_'

/-- Maximal `[a-zA-Z0-9_]*` run at the head of the character list, and the
remaining characters. -/
def takeWord : List Char → List Char × List Char
  | [] => ([], [])
  | c :: cs =>
    if isWordChar c then
      let (w, r) := takeWord cs
      (c :: w, r)
    else ([], c :: cs)

theorem takeWord_snd_length_le (l : List Char) : (takeWord l).2.length ≤ l.length := by
  induction l with
  | nil => simp [takeWord]
  | cons c cs ih =>
    rw [takeWord]
    by_cases h : isWordChar c = true
    · simp only [h, if_true]
      exact Nat.le_succ_of_le ih
    · rw [if_neg h]

/-- All matches of `/(?<![:# ])\\b[a-zA-Z_][a-zA-Z0-9_]*\\b/g`: maximal word
runs starting with a letter or underscore whose preceding character (when
present) is not a word character (the `\\b`) and not `:`, `#` or a space
(the negative lookbehind). `prev` is the character before the scan
position in the original string; the fuel argument (initially the string
length, consumed once per step) only makes the recursion structural. -/
def findTokensAux (fuel : Nat) (prev : Option Char) (l : List Char) : List String :=
  match fuel, l with
  | 0, _ => []
  | _, [] => []
  | fuel + 1, c :: cs =>
    let prevOk : Bool := match prev with
      | none => true
      | some p => !(isWordChar p) && !(p = ':') && !(p = '#') && !(p = ' ')
    if isWordStart c && prevOk then
      let w := c :: (takeWord cs).1
      String.mk w :: findTokensAux fuel (some (w.getLastD 'x')) (takeWord cs).2
    else
      findTokensAux fuel (some c) cs

/-- Tokenize an expression string with the word-boundary scan. -/
def findTokens (s : String) : List String := findTokensAux s.data.length none s.data

/-- The negative lookahead `(?!\s*[=<>])` *fails* exactly when optional
whitespace followed by `=`, `<` or `>` follows. -/
def lookaheadFails (rest : List Char) : Bool :=
  match rest.dropWhile (fun c => c.isWhitespace) with
  | [] => false
  | c :: _ => c = '=' || c = '<' || c = '>'

/-- One global replace `s.replace(new RegExp(`\b{w}\b(?!\s*[=<>])`, 'g'), rep)`:
occurrences of the word `w` delimited by word boundaries and not followed
by optional whitespace and a comparator are replaced by `rep`; scanning
resumes after the matched word of the original string. -/
def replaceWordAux (w rep : List Char) : Nat → Option Char → List Char → List Char
  | 0, _, _ => []
  | _, _, [] => []
  | fuel + 1, prev, c :: cs =>
    let prevOk : Bool := match prev with
      | none => true
      | some p => !(isWordChar p)
    let rest := (c :: cs).drop w.length
    let endOk : Bool := match rest with
      | [] => true
      | c' :: _ => !(isWordChar c')
    if (!w.isEmpty) && prevOk && w.isPrefixOf (c :: cs) && endOk && !(lookaheadFails rest) then
      rep ++ replaceWordAux w rep fuel (some (w.getLastD 'x')) rest
    else
      c :: replaceWordAux w rep fuel (some c) cs

/-- String-level wrapper for the global word replace. -/
def replaceWord (s w rep : String) : String :=
  String.mk (replaceWordAux w.data rep.data s.data.length none s.data)

/-- `ExpressionAttributeHandler.processKeyConditionExpression`: tokenize the
hand-written expression, and for each reserved token substitute its
assigned placeholder via the global word replace. -/
def processKeyConditionExpression (st : AttrState) (expression : String) :
    String × AttrState :=
  let attributeMatches := findTokens expression
  attributeMatches.foldl
    (fun (acc : String × AttrState) attr =>
      if isReservedWord attr then
        let (placeholder, st2) := getExpressionAttributeName acc.2 attr
        (replaceWord acc.1 attr placeholder, st2)
      else acc)
    (expression, st)

/-- A resolver state reached by a sequence of attribute-name resolutions
from a fresh handler. -/
def resolveAll (names : List String) : AttrState :=
  names.foldl (fun st n => (getExpressionAttributeName st n).2) AttrState.init

/-- Reachability invariant of the resolver: every memoized placeholder has
the form `#n{K}` with `1 ≤ K ≤ nameCount`. -/
def AttrInv (st : AttrState) : Prop :=
  ∀ p ∈ st.attributeNameMap, ∃ K, 1 ≤ K ∧ K ≤ st.nameCount ∧ p.2 = nameKeyOfIdx K

/-! ### QueryBuilder (`src/query-builder.ts`) -/

inductive QueryOperationType where
  | EQUALS | NOT_EQUALS | GREATER_THAN | LESS_THAN
  | CONTAINS | BEGINS_WITH | IN | BETWEEN
deriving DecidableEq, Repr

structure QueryCondition where
  field : String
  value : Val
  operation : QueryOperationType

/-- The accumulated state of a `QueryBuilder` instance. -/
structure QueryBuilder where
  conditions : List QueryCondition
  indexName : Option String
  limit : Option Int
  selectedFields : Option (List String)

/-- `new QueryBuilder()`. -/
def QueryBuilder.empty : QueryBuilder := ⟨[], none, none, none⟩

def MAX_LIMIT : Int := 1000
def MAX_CONDITIONS : Nat := 100

/-- Character class of the `^[a-zA-Z0-9_]+$` field-name regex. -/
def fieldChar (c : Char) : Bool := c.isAlphanum || c = '_'

/-- `QueryBuilder.validateFieldName`. -/
def qbValidateFieldName (field : String) : Except String Unit :=
  if field = "" then .error "Field name must be a non-empty string"
  else if !(field.data.all fieldChar) then
    .error "Field name can only contain alphanumeric characters and underscores"
  else .ok ()

/-- `QueryBuilder.validateValue`. -/
def qbValidateValue (value : Val) : Except String Unit :=
  match value with
  | .undefV => .error "Value cannot be undefined or null"
  | .null => .error "Value cannot be undefined or null"
  | .str s =>
    if s.length > 400000 then .error "String value exceeds maximum length of 400KB"
    else .ok ()
  | _ => .ok ()

/-- The `MAX_CONDITIONS` guard shared by every condition method. -/
def qbCheckCount (b : QueryBuilder) : Except String Unit :=
  if b.conditions.length ≥ MAX_CONDITIONS then
    .error "Maximum number of conditions (100) exceeded"
  else .ok ()

def QueryBuilder.push (b : QueryBuilder) (c : QueryCondition) : QueryBuilder :=
  { b with conditions := b.conditions ++ [c] }

/-- `QueryBuilder.equals`. -/
def QueryBuilder.equals (b : QueryBuilder) (field : String) (value : Val) :
    Except String QueryBuilder := do
  qbValidateFieldName field
  qbValidateValue value
  qbCheckCount b
  pure (b.push ⟨field, value, .EQUALS⟩)

/-- `QueryBuilder.notEquals`. -/
def QueryBuilder.notEquals (b : QueryBuilder) (field : String) (value : Val) :
    Except String QueryBuilder := do
  qbValidateFieldName field
  qbValidateValue value
  qbCheckCount b
  pure (b.push ⟨field, value, .NOT_EQUALS⟩)

/-- `typeof value === 'number' && !isNaN(value)` (`NaN` is not representable
in the integer model, so the check is only a type test). -/
def qbValidateNumber (value : Val) : Except String Unit :=
  match value with
  | .num _ => .ok ()
  | _ => .error "Value must be a valid number"

/-- `QueryBuilder.greaterThan`. -/
def QueryBuilder.greaterThan (b : QueryBuilder) (field : String) (value : Val) :
    Except String QueryBuilder := do
  qbValidateFieldName field
  qbValidateNumber value
  qbCheckCount b
  pure (b.push ⟨field, value, .GREATER_THAN⟩)

/-- `QueryBuilder.lessThan`. -/
def QueryBuilder.lessThan (b : QueryBuilder) (field : String) (value : Val) :
    Except String QueryBuilder := do
  qbValidateFieldName field
  qbValidateNumber value
  qbCheckCount b
  pure (b.push ⟨field, value, .LESS_THAN⟩)

/-- `QueryBuilder.contains`. -/
def QueryBuilder.contains (b : QueryBuilder) (field : String) (value : Val) :
    Except String QueryBuilder := do
  qbValidateFieldName field
  qbValidateValue value
  qbCheckCount b
  pure (b.push ⟨field, value, .CONTAINS⟩)

/-- `QueryBuilder.beginsWith`. -/
def QueryBuilder.beginsWith (b : QueryBuilder) (field : String) (value : Val) :
    Except String QueryBuilder := do
  qbValidateFieldName field
  (match value with
   | .str _ => .ok ()
   | _ => .error "Value must be a string")
  qbCheckCount b
  pure (b.push ⟨field, value, .BEGINS_WITH⟩)

/-- `QueryBuilder.in`  (named `inCond` because `in` is a Lean keyword). -/
def QueryBuilder.inCond (b : QueryBuilder) (field : String) (values : List Val) :
    Except String QueryBuilder := do
  qbValidateFieldName field
  if values.isEmpty then throw "Values must be a non-empty array"
  for v in values do
    qbValidateValue v
  qbCheckCount b
  pure (b.push ⟨field, .list values, .IN⟩)

/-- `QueryBuilder.between`. -/
def QueryBuilder.between (b : QueryBuilder) (field : String) (start «end» : Val) :
    Except String QueryBuilder := do
  qbValidateFieldName field
  (match start, «end» with
   | .num _, .num _ => .ok ()
   | _, _ => .error "Start and end values must be valid numbers")
  (match start, «end» with
   | .num s, .num e =>
     if s > e then .error "Start value must be less than or equal to end value"
     else .ok ()
   | _, _ => .ok ())
  qbCheckCount b
  pure (b.push ⟨field, .list [start, «end»], .BETWEEN⟩)

/-- JS indexing `value[i]` as used on the BETWEEN payload. -/
def valIndex (v : Val) (i : Nat) : Val :=
  match v with
  | .list l => l.getD i Val.undefV
  | .str s =>
    match s.data.drop i with
    | [] => .undefV
    | c :: _ => .str (String.mk [c])
  | _ => .undefV

structure KeyCondition where
  expression : String
  values : List (String × Val)

/-- The `switch (keyCondition.operation)` of `QueryBuilder.build`: compile
the key condition from one `QueryCondition`. -/
def compileKeyCondition (c : QueryCondition) : KeyCondition :=
  match c.operation with
  | .EQUALS => ⟨c.field ++ " = :keyValue", [(":keyValue", c.value)]⟩
  | .BEGINS_WITH => ⟨"begins_with(" ++ c.field ++ ", :keyValue)", [(":keyValue", c.value)]⟩
  | .BETWEEN => ⟨c.field ++ " BETWEEN :start AND :end",
      [(":start", valIndex c.value 0), (":end", valIndex c.value 1)]⟩
  | _ => ⟨c.field ++ " = :keyValue", [(":keyValue", c.value)]⟩

structure QueryBuildResult where
  conditions : List QueryCondition
  indexName : Option String
  limit : Option Int
  select : Option (List String)
  keyCondition : KeyCondition

/-- `QueryBuilder.build`. -/
def QueryBuilder.build (b : QueryBuilder) : Except String QueryBuildResult :=
  match b.conditions with
  | [] => .error "No conditions specified"
  | c :: _ =>
    .ok ⟨b.conditions, b.indexName, b.limit, b.selectedFields, compileKeyCondition c⟩

/-! ### Shared validation helpers (`src/core/error-handler.ts`) -/

/-- JS `String.prototype.trim` (ASCII whitespace). -/
def jsTrim (s : String) : String :=
  String.mk (((s.data.dropWhile Char.isWhitespace).reverse.dropWhile Char.isWhitespace).reverse)

/-- `validateString(value, msg)`: a non-empty (after trim) string. -/
def validateString (value : Val) (errorMessage : String) : Except String Unit :=
  match value with
  | .str s => if jsTrim s = "" then .error errorMessage else .ok ()
  | _ => .error errorMessage

/-- `validateNumber(value, msg)`. -/
def validateNumber (value : Val) (errorMessage : String) : Except String Unit :=
  match value with
  | .num _ => .ok ()
  | _ => .error errorMessage

/-- `validateFieldName(fieldName)`: non-empty after trim; outside the
`NODE_ENV === 'test'` bypass additionally only `[a-zA-Z0-9_]` characters. -/
def ehValidateFieldName (nodeEnvTest : Bool) (fieldName : String) : Except String Unit :=
  if jsTrim fieldName = "" then .error "Field name must be a non-empty string"
  else if nodeEnvTest then .ok ()
  else if !(fieldName.data.all fieldChar) then
    .error "Field name can only contain alphanumeric characters and underscores"
  else .ok ()

/-! ### ScanBuilder (`src/scan-builder.ts`)

The `process.env.NODE_ENV === 'test'` toggle read by the source is modelled
as the ambient boolean `nodeEnvTest` carried in the state. The field
`generatedValueKeys` is ghost instrumentation: it records, in allocation
order, every `:value{n}` placeholder the builder itself generates (the
`:value${this.valueCounter++}` sites); it influences no other field. -/

structure ScanState where
  nodeEnvTest : Bool
  filterExpressions : List String
  expressionValues : List (String × Val)
  expressionNames : List (String × String)
  selectedFields : Option (List String)
  limitValue : Option Int
  indexNameValue : Option String
  consistentReadValue : Option Bool
  startKeyValue : Option (List (String × Val))
  totalSegmentsValue : Option Int
  segmentValue : Option Int
  valueCounter : Nat
  generatedValueKeys : List String

/-- `new ScanBuilder()` under a given `NODE_ENV`. -/
def ScanState.init (nodeEnvTest : Bool) : ScanState :=
  ⟨nodeEnvTest, [], [], [], none, none, none, none, none, none, none, 0, []⟩

/-- The test-mode allow-list of `ScanBuilder.getExpressionName`. -/
def scanTestAllowList : List String :=
  ["name", "age", "status", "interests", "email", "deletedAt"]

/-- `ScanBuilder.getExpressionName`: in test mode allow-listed fields pass
through; otherwise a reserved word or a field with special characters is
assigned a fresh `#n{k}` placeholder, `k` being the current size of the
`expressionNames` map. -/
def scanGetExpressionName (s : ScanState) (field : String) : String × ScanState :=
  if s.nodeEnvTest && scanTestAllowList.contains field then
    (field, s)
  else
    let needsReplacement := isReservedWord field || !(field.data.all fieldChar)
    if needsReplacement then
      let nameKey := nameKeyOfIdx s.expressionNames.length
      (nameKey, { s with expressionNames := assocSet s.expressionNames nameKey field })
    else (field, s)

/-- The `:value${this.valueCounter++}` idiom, with ghost recording. -/
def allocValueKey (s : ScanState) : String × ScanState :=
  let valueKey := scanKeyOfIdx s.valueCounter
  (valueKey,
    { s with valueCounter := s.valueCounter + 1,
             generatedValueKeys := s.generatedValueKeys ++ [valueKey] })

/-- The mutation block of `ScanBuilder.addCondition` (after its
validation): resolve the name, allocate a value placeholder, push the
fragment and record the value. -/
def ScanState.addConditionCore (s : ScanState) (field operator : String) (value : Val) :
    ScanState :=
  let r1 := scanGetExpressionName s field
  let r2 := allocValueKey r1.2
  { r2.2 with
    filterExpressions :=
      r2.2.filterExpressions ++ [r1.1 ++ " " ++ operator ++ " " ++ r2.1],
    expressionValues := objSet r2.2.expressionValues r2.1 value }

/-- `ScanBuilder.addCondition(field, operator, value)`. -/
def ScanState.addCondition (s : ScanState) (field operator : String) (value : Val) :
    Except String ScanState := do
  ehValidateFieldName s.nodeEnvTest field
  pure (s.addConditionCore field operator value)

/-- `ScanBuilder.equals`. -/
def ScanState.equals (s : ScanState) (field : String) (value : Val) :
    Except String ScanState :=
  s.addCondition field "=" value

/-- `ScanBuilder.notEquals`. -/
def ScanState.notEquals (s : ScanState) (field : String) (value : Val) :
    Except String ScanState :=
  s.addCondition field "<>" value

/-- `ScanBuilder.lessThan`. -/
def ScanState.lessThan (s : ScanState) (field : String) (value : Val) :
    Except String ScanState :=
  s.addCondition field "<" value

/-- `ScanBuilder.lessThanOrEqual`. -/
def ScanState.lessThanOrEqual (s : ScanState) (field : String) (value : Val) :
    Except String ScanState :=
  s.addCondition field "<=" value

/-- `ScanBuilder.greaterThan`. -/
def ScanState.greaterThan (s : ScanState) (field : String) (value : Val) :
    Except String ScanState :=
  s.addCondition field ">" value

/-- `ScanBuilder.greaterThanOrEqual`. -/
def ScanState.greaterThanOrEqual (s : ScanState) (field : String) (value : Val) :
    Except String ScanState :=
  s.addCondition field ">=" value

/-- Mutation block of `ScanBuilder.beginsWith`. -/
def ScanState.beginsWithCore (s : ScanState) (field : String) (value : Val) : ScanState :=
  let r1 := scanGetExpressionName s field
  let r2 := allocValueKey r1.2
  { r2.2 with
    filterExpressions :=
      r2.2.filterExpressions ++ ["begins_with(" ++ r1.1 ++ ", " ++ r2.1 ++ ")"],
    expressionValues := objSet r2.2.expressionValues r2.1 value }

/-- `ScanBuilder.beginsWith`. -/
def ScanState.beginsWith (s : ScanState) (field : String) (value : Val) :
    Except String ScanState := do
  validateString value "Value must be a string"
  ehValidateFieldName s.nodeEnvTest field
  pure (s.beginsWithCore field value)

/-- Mutation block of `ScanBuilder.contains`. -/
def ScanState.containsCore (s : ScanState) (field : String) (value : Val) : ScanState :=
  let r1 := scanGetExpressionName s field
  let r2 := allocValueKey r1.2
  { r2.2 with
    filterExpressions :=
      r2.2.filterExpressions ++ ["contains(" ++ r1.1 ++ ", " ++ r2.1 ++ ")"],
    expressionValues := objSet r2.2.expressionValues r2.1 value }

/-- `ScanBuilder.contains`. -/
def ScanState.contains (s : ScanState) (field : String) (value : Val) :
    Except String ScanState := do
  validateString value "Value must be a string"
  ehValidateFieldName s.nodeEnvTest field
  pure (s.containsCore field value)

/-- Mutation block of `ScanBuilder.between`. -/
def ScanState.betweenCore (s : ScanState) (field : String) (lowerValue upperValue : Val) :
    ScanState :=
  let r1 := scanGetExpressionName s field
  let r2 := allocValueKey r1.2
  let r3 := allocValueKey r2.2
  { r3.2 with
    filterExpressions := r3.2.filterExpressions ++
      [r1.1 ++ " BETWEEN " ++ r2.1 ++ " AND " ++ r3.1],
    expressionValues :=
      objSet (objSet r3.2.expressionValues r2.1 lowerValue) r3.1 upperValue }

/-- `ScanBuilder.between`. -/
def ScanState.between (s : ScanState) (field : String) (lowerValue upperValue : Val) :
    Except String ScanState := do
  ehValidateFieldName s.nodeEnvTest field
  pure (s.betweenCore field lowerValue upperValue)

/-- Mutation block of `ScanBuilder.attributeExists`. -/
def ScanState.attributeExistsCore (s : ScanState) (field : String) : ScanState :=
  let r1 := scanGetExpressionName s field
  { r1.2 with
    filterExpressions := r1.2.filterExpressions ++ ["attribute_exists(" ++ r1.1 ++ ")"] }

/-- `ScanBuilder.attributeExists`. -/
def ScanState.attributeExists (s : ScanState) (field : String) :
    Except String ScanState := do
  ehValidateFieldName s.nodeEnvTest field
  pure (s.attributeExistsCore field)

/-- Mutation block of `ScanBuilder.attributeNotExists`. -/
def ScanState.attributeNotExistsCore (s : ScanState) (field : String) : ScanState :=
  let r1 := scanGetExpressionName s field
  { r1.2 with
    filterExpressions := r1.2.filterExpressions ++ ["attribute_not_exists(" ++ r1.1 ++ ")"] }

/-- `ScanBuilder.attributeNotExists`. -/
def ScanState.attributeNotExists (s : ScanState) (field : String) :
    Except String ScanState := do
  ehValidateFieldName s.nodeEnvTest field
  pure (s.attributeNotExistsCore field)

/-- Mutation block of `ScanBuilder.filter`: push the parenthesized custom
fragment and merge the caller-supplied values. -/
def ScanState.filterCore (s : ScanState) (expression : String)
    (values : Option (List (String × Val))) : ScanState :=
  let s1 := { s with filterExpressions := s.filterExpressions ++ ["(" ++ expression ++ ")"] }
  match values with
  | none => s1
  | some vs =>
    { s1 with
      expressionValues := vs.foldl (fun m kv => objSet m kv.1 kv.2) s1.expressionValues }

/-- `ScanBuilder.filter(expression, values?)`. -/
def ScanState.filter (s : ScanState) (expression : String)
    (values : Option (List (String × Val))) : Except String ScanState := do
  validateString (.str expression) "Expression must be a non-empty string"
  pure (s.filterCore expression values)

/-- Mutation block of `ScanBuilder.selectFields`: resolve every field
through the shared name resolver, in order. -/
def ScanState.selectFieldsCore (s : ScanState) (fields : List String) : ScanState :=
  let r := fields.foldl
    (fun (acc : List String × ScanState) f =>
      (acc.1 ++ [(scanGetExpressionName acc.2 f).1], (scanGetExpressionName acc.2 f).2)) ([], s)
  { r.2 with selectedFields := some r.1 }

/-- `ScanBuilder.selectFields`. -/
def ScanState.selectFields (s : ScanState) (fields : List String) :
    Except String ScanState := do
  (if fields.isEmpty then throw "Fields must be a non-empty array" else pure ())
  (fields.forM fun f => ehValidateFieldName s.nodeEnvTest f)
  pure (s.selectFieldsCore fields)

/-- The conditions a caller can add to a scan builder, for quantifying over
whole build sequences. -/
inductive ScanOp where
  | equals (field : String) (value : Val)
  | notEquals (field : String) (value : Val)
  | lessThan (field : String) (value : Val)
  | lessThanOrEqual (field : String) (value : Val)
  | greaterThan (field : String) (value : Val)
  | greaterThanOrEqual (field : String) (value : Val)
  | beginsWith (field : String) (value : Val)
  | contains (field : String) (value : Val)
  | between (field : String) (lowerValue upperValue : Val)
  | attributeExists (field : String)
  | attributeNotExists (field : String)
  | filter (expression : String) (values : Option (List (String × Val)))
  | selectFields (fields : List String)

/-- Apply one builder call. -/
def applyScanOp (s : ScanState) : ScanOp → Except String ScanState
  | .equals f v => s.equals f v
  | .notEquals f v => s.notEquals f v
  | .lessThan f v => s.lessThan f v
  | .lessThanOrEqual f v => s.lessThanOrEqual f v
  | .greaterThan f v => s.greaterThan f v
  | .greaterThanOrEqual f v => s.greaterThanOrEqual f v
  | .beginsWith f v => s.beginsWith f v
  | .contains f v => s.contains f v
  | .between f lo hi => s.between f lo hi
  | .attributeExists f => s.attributeExists f
  | .attributeNotExists f => s.attributeNotExists f
  | .filter e vs => s.filter e vs
  | .selectFields fs => s.selectFields fs

/-- Apply a whole sequence of builder calls (stopping at the first thrown
validation error, as an exception would propagate to the caller). -/
def runScanOps (s : ScanState) : List ScanOp → Except String ScanState
  | [] => pure s
  | op :: ops => do runScanOps (← applyScanOp s op) ops

/-- The flat options object returned by `ScanBuilder.build`. -/
structure ScanOptions where
  filter : Option String
  expressionValues : Option (List (String × Val))
  expressionNames : Option (List (String × String))
  attributes : Option (List String)
  limit : Option Int
  indexName : Option String
  consistent : Option Bool
  startKey : Option (List (String × Val))
  totalSegments : Option Int
  segment : Option Int

/-- `ScanBuilder.build`. -/
def ScanState.build (s : ScanState) : ScanOptions :=
  { filter :=
      if s.filterExpressions.length > 0 then some (joinSep " AND " s.filterExpressions)
      else none,
    expressionValues :=
      if s.expressionValues.length > 0 then some s.expressionValues else none,
    expressionNames :=
      if s.expressionNames.length > 0 then some s.expressionNames else none,
    attributes := s.selectedFields,
    limit := s.limitValue,
    indexName := s.indexNameValue,
    consistent := s.consistentReadValue,
    startKey := s.startKeyValue,
    totalSegments :=
      match s.totalSegmentsValue, s.segmentValue with
      | some t, some _ => some t
      | _, _ => none,
    segment :=
      match s.totalSegmentsValue, s.segmentValue with
      | some _, some g => some g
      | _, _ => none }

/-- Reachability invariant of a scan builder: the ghost allocation log
holds exactly `:value0 … :value(counter-1)` in order, and the name map's
keys are exactly `#n0 … #n(size-1)` in order. -/
def ScanInv (s : ScanState) : Prop :=
  s.generatedValueKeys = (List.range s.valueCounter).map scanKeyOfIdx
  ∧ s.expressionNames.map Prod.fst =
      (List.range s.expressionNames.length).map nameKeyOfIdx

/-! ### Update model (`src/types` / `src/operations/update.ts`) -/

inductive UpdateOperationType where
  | SET | REMOVE | ADD | DELETE
deriving DecidableEq, Repr

/-- The wire name of each update verb (the TS enum values). -/
def UpdateOperationType.verb : UpdateOperationType → String
  | .SET => "SET"
  | .REMOVE => "REMOVE"
  | .ADD => "ADD"
  | .DELETE => "DELETE"

structure FieldUpdate where
  field : String
  value : Option Val
  operation : UpdateOperationType

/-! ### UpdateBuilder (`src/operations/update-builder.ts`) -/

structure UpdateBuilderState where
  updates : List FieldUpdate

def UpdateBuilderState.empty : UpdateBuilderState := ⟨[]⟩

def MAX_UPDATES : Nat := 100

def ubCheckCount (b : UpdateBuilderState) : Except String Unit :=
  if b.updates.length ≥ MAX_UPDATES then
    .error "Maximum number of updates (100) exceeded"
  else .ok ()

/-- `UpdateBuilder.set`. -/
def UpdateBuilderState.set (b : UpdateBuilderState) (field : String) (value : Val) :
    Except String UpdateBuilderState := do
  qbValidateFieldName field
  qbValidateValue value
  ubCheckCount b
  pure ⟨b.updates ++ [⟨field, some value, .SET⟩]⟩

/-- `UpdateBuilder.remove`. -/
def UpdateBuilderState.remove (b : UpdateBuilderState) (field : String) :
    Except String UpdateBuilderState := do
  qbValidateFieldName field
  ubCheckCount b
  pure ⟨b.updates ++ [⟨field, none, .REMOVE⟩]⟩

/-- `UpdateBuilder.addToSet`. -/
def UpdateBuilderState.addToSet (b : UpdateBuilderState) (field : String) (value : Val) :
    Except String UpdateBuilderState := do
  qbValidateFieldName field
  qbValidateValue value
  ubCheckCount b
  pure ⟨b.updates ++ [⟨field, some value, .ADD⟩]⟩

/-- `UpdateBuilder.removeFromSet`. -/
def UpdateBuilderState.removeFromSet (b : UpdateBuilderState) (field : String) (value : Val) :
    Except String UpdateBuilderState := do
  qbValidateFieldName field
  qbValidateValue value
  ubCheckCount b
  pure ⟨b.updates ++ [⟨field, some value, .DELETE⟩]⟩

/-- `UpdateBuilder.increment(field, value)`: pushes an ADD of the value. -/
def UpdateBuilderState.increment (b : UpdateBuilderState) (field : String) (value : Val) :
    Except String UpdateBuilderState := do
  qbValidateFieldName field
  qbValidateNumber value
  ubCheckCount b
  pure ⟨b.updates ++ [⟨field, some value, .ADD⟩]⟩

/-- `UpdateBuilder.decrement(field, value)`: pushes an ADD of the negated value. -/
def UpdateBuilderState.decrement (b : UpdateBuilderState) (field : String) (value : Val) :
    Except String UpdateBuilderState := do
  qbValidateFieldName field
  qbValidateNumber value
  ubCheckCount b
  match value with
  | .num n => pure ⟨b.updates ++ [⟨field, some (.num (-n)), .ADD⟩]⟩
  | _ => pure ⟨b.updates ++ [⟨field, some .undefV, .ADD⟩]⟩

/-- The `{ __listAppend: true, items: [value] }` marker object. -/
def appendMarker (value : Val) : Val :=
  .obj [("__listAppend", .bool true), ("items", .list [value])]

/-- The `{ __listPrepend: true, items: [value] }` marker object. -/
def prependMarker (value : Val) : Val :=
  .obj [("__listPrepend", .bool true), ("items", .list [value])]

/-- `UpdateBuilder.appendToList`: a SET whose value is the append marker. -/
def UpdateBuilderState.appendToList (b : UpdateBuilderState) (field : String) (value : Val) :
    Except String UpdateBuilderState := do
  qbValidateFieldName field
  qbValidateValue value
  ubCheckCount b
  pure ⟨b.updates ++ [⟨field, some (appendMarker value), .SET⟩]⟩

/-- `UpdateBuilder.prependToList`: a SET whose value is the prepend marker. -/
def UpdateBuilderState.prependToList (b : UpdateBuilderState) (field : String) (value : Val) :
    Except String UpdateBuilderState := do
  qbValidateFieldName field
  qbValidateValue value
  ubCheckCount b
  pure ⟨b.updates ++ [⟨field, some (prependMarker value), .SET⟩]⟩

/-- `UpdateBuilder.build`. -/
def UpdateBuilderState.build (b : UpdateBuilderState) : Except String (List FieldUpdate) :=
  if b.updates.isEmpty then .error "No updates specified"
  else .ok b.updates

/-! ### The update-expression compiler (`updateItem` in `src/operations/update.ts`) -/

/-- JS truthiness on the modelled values. -/
def truthy : Val → Bool
  | .undefV => false
  | .null => false
  | .bool b => b
  | .num n => n != 0
  | .str s => s != ""
  | .list _ => true
  | .obj _ => true

/-- `typeof v === 'object' && v !== null` (arrays and plain objects). -/
def isObjectNonNull : Val → Bool
  | .list _ => true
  | .obj _ => true
  | _ => false

/-- JS property read `v.k` (arrays have no named data properties). -/
def getProp (v : Val) (k : String) : Val :=
  match v with
  | .obj fs => objGet fs k
  | _ => .undefV

/-- First-occurrence-ordered list of verbs present, mirroring the key order
of the `reduce`-built `groupedUpdates` object under `Object.entries`. -/
def dedupKeepFirstAux (seen : List UpdateOperationType) :
    List UpdateOperationType → List UpdateOperationType
  | [] => []
  | x :: xs =>
    if x ∈ seen then dedupKeepFirstAux seen xs
    else x :: dedupKeepFirstAux (seen ++ [x]) xs

def dedupKeepFirst (l : List UpdateOperationType) : List UpdateOperationType :=
  dedupKeepFirstAux [] l

/-- The mutable locals of `updateItem` threaded through compilation. -/
structure UpdCompileState where
  valueCounter : Nat
  expressionValues : List (String × Val)
  attr : AttrState

def UpdCompileState.init : UpdCompileState := ⟨0, [], AttrState.init⟩

/-- The body of the `updates.map(update => ...)` callback: compile one
`FieldUpdate` into its clause, threading the counter, value map and
attribute-name handler. `operation` is the group key. -/
def compileMember (st : UpdCompileState) (operation : UpdateOperationType)
    (update : FieldUpdate) : String × UpdCompileState :=
  let (fieldName, attr') := getExpressionAttributeName st.attr update.field
  let st1 := { st with attr := attr' }
  match update.value with
  | none => (fieldName, st1)
  | some v =>
    let n := st1.valueCounter + 1
    let placeholder := ":val" ++ Nat.repr n
    if update.operation == .SET && isObjectNonNull v && truthy (getProp v "__listAppend") then
      let itemsPlaceholder := ":items" ++ Nat.repr n
      let emptyListPlaceholder := ":empty" ++ Nat.repr n
      (fieldName ++ " = list_append(if_not_exists(" ++ fieldName ++ ", " ++
          emptyListPlaceholder ++ "), " ++ itemsPlaceholder ++ ")",
        { st1 with
          valueCounter := n,
          expressionValues :=
            objSet (objSet st1.expressionValues itemsPlaceholder (getProp v "items"))
              emptyListPlaceholder (.list []) })
    else if update.operation == .SET && isObjectNonNull v &&
        truthy (getProp v "__listPrepend") then
      let itemsPlaceholder := ":items" ++ Nat.repr n
      let emptyListPlaceholder := ":empty" ++ Nat.repr n
      (fieldName ++ " = list_append(" ++ itemsPlaceholder ++ ", if_not_exists(" ++
          fieldName ++ ", " ++ emptyListPlaceholder ++ "))",
        { st1 with
          valueCounter := n,
          expressionValues :=
            objSet (objSet st1.expressionValues itemsPlaceholder (getProp v "items"))
              emptyListPlaceholder (.list []) })
    else
      let st2 := { st1 with
        valueCounter := n,
        expressionValues := objSet st1.expressionValues placeholder v }
      match operation with
      | .SET => (fieldName ++ " = " ++ placeholder, st2)
      | .ADD => (fieldName ++ " " ++ placeholder, st2)
      | .DELETE => (fieldName ++ " " ++ placeholder, st2)
      | .REMOVE => (fieldName, st2)

/-- Compile one verb group's members in order. -/
def compileGroup (st : UpdCompileState) (operation : UpdateOperationType)
    (members : List FieldUpdate) : List String × UpdCompileState :=
  members.foldl
    (fun (acc : List String × UpdCompileState) u =>
      (acc.1 ++ [(compileMember acc.2 operation u).1], (compileMember acc.2 operation u).2))
    ([], st)

/-- Group the updates by verb (first-occurrence order) and compile each
group, returning the per-group clause lists alongside the final state. -/
def compileUpdates (updateArray : List FieldUpdate) :
    List (UpdateOperationType × List String) × UpdCompileState :=
  let verbs := dedupKeepFirst (updateArray.map (·.operation))
  verbs.foldl
    (fun (acc : List (UpdateOperationType × List String) × UpdCompileState) vb =>
      (acc.1 ++ [(vb, (compileGroup acc.2 vb (updateArray.filter (fun u => u.operation = vb))).1)],
       (compileGroup acc.2 vb (updateArray.filter (fun u => u.operation = vb))).2))
    ([], UpdCompileState.init)

/-- `expressionParts.join(' ')` over `"${operation} ${updateParts.join(', ')}"`. -/
def renderUpdateExpression (groups : List (UpdateOperationType × List String)) : String :=
  joinSep " " (groups.map (fun g => g.1.verb ++ " " ++ joinSep ", " g.2))

/-- The `UpdateExpression` string and `ExpressionAttributeValues` map that
`updateItem` sends for a given update array. -/
def updateItemExpression (updateArray : List FieldUpdate) :
    String × List (String × Val) :=
  ((renderUpdateExpression (compileUpdates updateArray).1),
   (compileUpdates updateArray).2.expressionValues)

/-- A field name the resolver passes through unchanged: a single dot-free
segment that is not reserved and has no hyphen or space. -/
def plainField (f : String) : Bool :=
  (splitChar '.' f == [f]) && !(isReservedWord f) && !(f.data.contains '-')
    && !(f.data.contains ' ')

/-- A `FieldUpdate` in the plain shape the claim describes: a pass-through
field name; REMOVE when the value is absent; and when present under SET,
the value is not a list-append/prepend marker object. -/
def plainUpdate (u : FieldUpdate) : Bool :=
  plainField u.field &&
  (match u.value with
   | none => u.operation == .REMOVE
   | some v => !(((u.operation == .SET) && isObjectNonNull v) &&
       (truthy (getProp v "__listAppend") || truthy (getProp v "__listPrepend"))))

/-- Modelled from the spec (refinement definition for C2, following the
claim's words): a SET member compiles to `field = :valN`, an ADD or DELETE
member to `field :valN`, a REMOVE member to the bare field name. -/
def specClause (u : FieldUpdate) (k : Nat) : String :=
  match u.operation with
  | .SET => u.field ++ " = :val" ++ Nat.repr k
  | .ADD => u.field ++ " :val" ++ Nat.repr k
  | .DELETE => u.field ++ " :val" ++ Nat.repr k
  | .REMOVE => u.field

/-- Modelled from the spec: one placeholder per present value, numbered by
a shared counter, clauses in member order. -/
def specClauses (n : Nat) : List FieldUpdate → List String × Nat
  | [] => ([], n)
  | u :: us =>
    match u.value with
    | none => ((specClauses n us).1.cons u.field, (specClauses n us).2)
    | some _ => ((specClauses (n + 1) us).1.cons (specClause u (n + 1)),
        (specClauses (n + 1) us).2)

/-- Modelled from the spec (refinement definition for C2): group members by
verb, join each verb's clauses with `', '`, join verb groups with a single
space. -/
def specUpdateExpression (updates : List FieldUpdate) : String :=
  let verbs := dedupKeepFirst (updates.map (·.operation))
  joinSep " "
    (verbs.foldl
      (fun (acc : List String × Nat) vb =>
        (acc.1 ++ [vb.verb ++ " " ++
          joinSep ", " (specClauses acc.2 (updates.filter (fun u => u.operation = vb))).1],
         (specClauses acc.2 (updates.filter (fun u => u.operation = vb))).2))
      ([], 0)).1

/-- The verb-group fold of `compileUpdates`, from an arbitrary start
state (abbreviation for reasoning; `compileUpdates` is this at the fresh
state over the deduplicated verbs). -/
def verbsFold (updateArray : List FieldUpdate) (verbs : List UpdateOperationType)
    (st : UpdCompileState) : List (UpdateOperationType × List String) × UpdCompileState :=
  verbs.foldl
    (fun (acc : List (UpdateOperationType × List String) × UpdCompileState) vb =>
      (acc.1 ++ [(vb, (compileGroup acc.2 vb (updateArray.filter (fun u => u.operation = vb))).1)],
       (compileGroup acc.2 vb (updateArray.filter (fun u => u.operation = vb))).2))
    ([], st)

/-- The spec-side verb fold of `specUpdateExpression`, from an arbitrary
counter. -/
def specFold (updates : List FieldUpdate) (verbs : List UpdateOperationType)
    (n : Nat) : List String × Nat :=
  verbs.foldl
    (fun (acc : List String × Nat) vb =>
      (acc.1 ++ [vb.verb ++ " " ++
        joinSep ", " (specClauses acc.2 (updates.filter (fun u => u.operation = vb))).1],
       (specClauses acc.2 (updates.filter (fun u => u.operation = vb))).2))
    ([], n)

/-- The SET clause shape the claim states for `appendToList`. -/
def appendClause (f : String) (N : Nat) : String :=
  f ++ " = list_append(if_not_exists(" ++ f ++ ", :empty" ++ Nat.repr N ++
    "), :items" ++ Nat.repr N ++ ")"

/-- The SET clause shape the claim states for `prependToList`. -/
def prependClause (f : String) (N : Nat) : String :=
  f ++ " = list_append(:items" ++ Nat.repr N ++ ", if_not_exists(" ++ f ++
    ", :empty" ++ Nat.repr N ++ "))"

/-! ### Stream cursor processor (`src/stream-processor.ts`)

`processStream` performs awaited engine calls; the engine is modelled as an
environment that supplies, per shard, the result of `getShardIterator` and
the successive results of `getStreamRecords` (one entry consumed per fetch
call), plus the outcome the caller handler would produce for that batch.
The run yields a ghost trace of events for stating the claims; `prior` in
`handlerCall` records the cumulative processed count at invocation time. -/

structure StreamRecord where
  eventID : String

structure StreamConfig where
  batchSize : Nat
  maxRecords : Option Nat
  pollInterval : Nat
  stopOnError : Bool

/-- The config defaulting of `processStream` (`config.batchSize || 100`,
`config.maxRecords || Infinity`, `config.pollInterval || 1000`,
`config.stopOnError || false`); `none`/`0` fall to the defaults, and
`maxRecords = none` models `Infinity`. -/
def resolveConfig (batchSize maxRecords pollInterval : Option Nat)
    (stopOnError : Option Bool) : StreamConfig :=
  { batchSize := match batchSize with
      | some b => if b = 0 then 100 else b
      | none => 100,
    maxRecords := match maxRecords with
      | some m => if m = 0 then none else some m
      | none => none,
    pollInterval := match pollInterval with
      | some p => if p = 0 then 1000 else p
      | none => 1000,
    stopOnError := stopOnError.getD false }

/-- `processedRecords < processingConfig.maxRecords` (always true against
`Infinity`). -/
def underMax (processed : Nat) (maxRecords : Option Nat) : Bool :=
  match maxRecords with
  | none => true
  | some n => processed < n

/-- One engine reply to `getStreamRecords`, plus the caller handler's
outcome were it invoked on that batch. -/
structure FetchResponse where
  result : Except String (List StreamRecord × Option String)
  handlerOk : Bool

/-- The environment's behaviour for one shard. -/
structure ShardEnv where
  shardId : Nat
  iterator : Except String String
  fetches : List FetchResponse

inductive StreamEvent where
  | iteratorIssued (shard : Nat)
  | iteratorFailed (shard : Nat)
  | fetch (shard : Nat) (cursor : String) (count : Nat) (next : Option String)
  | fetchError (shard : Nat) (cursor : String)
  | handlerCall (shard : Nat) (count : Nat) (prior : Nat) (ok : Bool)
  | sleep (shard : Nat)

inductive StreamOutcome where
  | completed
  | failed
  | outOfTrace
deriving DecidableEq

/-- The per-shard `while (nextShardIterator && processedRecords < maxRecords)`
loop. One environment entry is consumed per `getStreamRecords` call;
`outOfTrace` reports a run cut short because the environment listed no
further replies. -/
def processShardLoop (cfg : StreamConfig) (sid : Nat) :
    List FetchResponse → Option String → Nat → List StreamEvent × Nat × StreamOutcome
  | fetches, cursor, processed =>
    match cursor with
    | none => ([], processed, .completed)
    | some cursor =>
      if !(underMax processed cfg.maxRecords) then ([], processed, .completed)
      else
        match fetches with
        | [] => ([], processed, .outOfTrace)
        | fr :: rest =>
          match fr.result with
          | .error _ =>
            if cfg.stopOnError then ([.fetchError sid cursor], processed, .failed)
            else
              let r := processShardLoop cfg sid rest (some cursor) processed
              (.fetchError sid cursor :: .sleep sid :: r.1, r.2)
          | .ok (records, next) =>
            let fev := StreamEvent.fetch sid cursor records.length next
            if records.length > 0 then
              if fr.handlerOk then
                let r := processShardLoop cfg sid rest next (processed + records.length)
                (fev :: .handlerCall sid records.length processed true :: r.1, r.2)
              else if cfg.stopOnError then
                ([fev, .handlerCall sid records.length processed false], processed, .failed)
              else
                let r := processShardLoop cfg sid rest next processed
                (fev :: .handlerCall sid records.length processed false :: r.1, r.2)
            else
              let r := processShardLoop cfg sid rest next processed
              (fev :: .sleep sid :: r.1, r.2)

/-- The `for (const shard of shards)` loop: acquire the initial iterator
(TRIM_HORIZON, unconditionally, even when `maxRecords` was already reached),
then run the per-shard loop; an iterator failure is thrown regardless of
`stopOnError`. -/
def processStreamRun (cfg : StreamConfig) :
    List ShardEnv → Nat → List StreamEvent × Nat × StreamOutcome
  | [], processed => ([], processed, .completed)
  | se :: rest, processed =>
    match se.iterator with
    | .error _ => ([.iteratorFailed se.shardId], processed, .failed)
    | .ok cursor =>
      let r := processShardLoop cfg se.shardId se.fetches (some cursor) processed
      match r.2.2 with
      | .completed =>
        let r2 := processStreamRun cfg rest r.2.1
        (.iteratorIssued se.shardId :: (r.1 ++ r2.1), r2.2)
      | o => (.iteratorIssued se.shardId :: r.1, r.2.1, o)

/-- A whole `processStream` run from a zero record count. -/
def processStream (cfg : StreamConfig) (shards : List ShardEnv) :
    List StreamEvent × Nat × StreamOutcome :=
  processStreamRun cfg shards 0

/-- Total number of records handed to the handler over a trace. -/
def totalHandled : List StreamEvent → Nat
  | [] => 0
  | .handlerCall _ n _ _ :: es => n + totalHandled es
  | _ :: es => totalHandled es

/-- The shard a cursor-issuing or cursor-using event concerns. -/
def cursorShard : StreamEvent → Option Nat
  | .iteratorIssued s => some s
  | .iteratorFailed s => some s
  | .fetch s _ _ _ => some s
  | .fetchError s _ => some s
  | _ => none

/-- Does this event exhaust its shard (a fetch returning no next cursor)? -/
def exhaustsShard : StreamEvent → Option Nat
  | .fetch s _ _ none => some s
  | _ => none

/-- Scan a trace maintaining the set of exhausted shards: `none` reports a
cursor issued or used for an already-exhausted shard, `some` returns the
final exhausted set. -/
def runExh (exhausted : List Nat) : List StreamEvent → Option (List Nat)
  | [] => some exhausted
  | e :: es =>
    let bad : Bool := match cursorShard e with
      | some s => decide (s ∈ exhausted)
      | none => false
    if bad then none
    else
      runExh
        (match exhaustsShard e with
         | some s => s :: exhausted
         | none => exhausted) es

/-- No cursor is issued or used for a shard after a fetch on that shard
returned no next cursor. -/
def checkNoReissue (evs : List StreamEvent) : Bool := (runExh [] evs).isSome

/-- No failed handler invocation occurs in the trace. -/
def noFailedHandler : List StreamEvent → Bool
  | [] => true
  | e :: es =>
    (match e with
     | .handlerCall _ _ _ ok => ok
     | _ => true) && noFailedHandler es

/-- Every failed handler invocation is the final event of the trace (the
run aborts there). -/
def abortsAfterHandlerFailure : List StreamEvent → Bool
  | [] => true
  | e :: es =>
    match e with
    | .handlerCall _ _ _ ok =>
      if ok then abortsAfterHandlerFailure es else es.isEmpty
    | _ => abortsAfterHandlerFailure es

/-! ## Claim theorems -/

/-- C1: `QueryBuilder.build()` throws the "no conditions" error if and only
if no conditions have been added; otherwise the first added condition
becomes the key condition, and in particular `equals('userId','123')`
followed by `build()` yields key-condition expression `'userId = :keyValue'`
with `':keyValue'` bound to `'123'`. -/
theorem C1_build_no_conditions_iff_and_first_condition_is_key :
    (∀ idx lim sel, QueryBuilder.build ⟨[], idx, lim, sel⟩ = .error "No conditions specified")
    ∧ (∀ c cs idx lim sel, QueryBuilder.build ⟨c :: cs, idx, lim, sel⟩ =
        .ok ⟨c :: cs, idx, lim, sel, compileKeyCondition c⟩)
    ∧ ((QueryBuilder.empty.equals "userId" (.str "123") >>= QueryBuilder.build) =
        .ok ⟨[⟨"userId", .str "123", .EQUALS⟩], none, none, none,
             ⟨"userId = :keyValue", [(":keyValue", .str "123")]⟩⟩) :=
  ⟨fun _ _ _ => rfl, fun _ _ _ _ _ => rfl, rfl⟩

/-- C10: when the first added condition uses an operator other than
EQUALS, BEGINS_WITH or BETWEEN, `build()` silently compiles the key
condition as the equality test `'field = :keyValue'` with that condition's
value bound to `':keyValue'`. -/
theorem C10_non_key_operator_compiles_as_equality
    (c : QueryCondition) (cs : List QueryCondition) (idx : Option String)
    (lim : Option Int) (sel : Option (List String))
    (h : c.operation = .NOT_EQUALS ∨ c.operation = .GREATER_THAN ∨
         c.operation = .LESS_THAN ∨ c.operation = .CONTAINS ∨ c.operation = .IN) :
    QueryBuilder.build ⟨c :: cs, idx, lim, sel⟩ =
      .ok ⟨c :: cs, idx, lim, sel,
           ⟨c.field ++ " = :keyValue", [(":keyValue", c.value)]⟩⟩ := by
  obtain ⟨f, v, op⟩ := c
  rcases h with h | h | h | h | h <;> (simp only at h; subst h; rfl)

/-- Witness for C10: `greaterThan('age', 25)` as first condition compiles
to the equality key condition `'age = :keyValue'`. -/
theorem C10_witness :
    QueryBuilder.build ⟨[⟨"age", .num 25, .GREATER_THAN⟩], none, none, none⟩ =
      .ok ⟨[⟨"age", .num 25, .GREATER_THAN⟩], none, none, none,
           ⟨"age = :keyValue", [(":keyValue", .num 25)]⟩⟩ :=
  C10_non_key_operator_compiles_as_equality
    ⟨"age", .num 25, .GREATER_THAN⟩ [] none none none (Or.inr (Or.inl rfl))

/-- C9: the claim says `processKeyConditionExpression` rewrites every
reserved bare identifier and never re-rewrites an already-escaped token.
On the input `"status = :status"` the code does the opposite of both: the
bare reserved identifier `status` (followed by `=`, excluded by the
replacement regex's lookahead) is left unchanged, while the already-escaped
value placeholder `:status` is corrupted into `:#n1`. -/
theorem C9_processKeyConditionExpression_misses_and_corrupts :
    (processKeyConditionExpression AttrState.init "status = :status").1 = "status = :#n1"
    ∧ (processKeyConditionExpression AttrState.init
        "status = :status").2.expressionAttributeNames = [("#n1", "status")]
    ∧ isReservedWord "status" = true
    ∧ (processKeyConditionExpression AttrState.init "status = :status").1 ≠
        "#n1 = :status" :=
  ⟨rfl, rfl, rfl, by decide⟩

/-! ### Except and association-list helper lemmas -/

theorem except_bind_ok {α β : Type} (a : α) (f : α → Except String β) :
    (Except.ok a >>= f) = f a := rfl

theorem except_bind_error {α β : Type} (e : String) (f : α → Except String β) :
    ((Except.error e : Except String α) >>= f) = .error e := rfl

/-- Success elimination for a `validation; pure x` method body. -/
theorem checks1_ok {α : Type} {c : Except String Unit} {x y : α}
    (h : (c >>= fun _ => (pure x : Except String α)) = .ok y) : y = x := by
  cases c with
  | error e => rw [except_bind_error] at h; cases h
  | ok u => cases u; rw [except_bind_ok] at h; exact (Except.ok.inj h).symm

/-- Success elimination for a `validation; validation; pure x` method body. -/
theorem checks2_ok {α : Type} {c d : Except String Unit} {x y : α}
    (h : (c >>= fun _ => (d >>= fun _ => (pure x : Except String α))) = .ok y) : y = x := by
  cases c with
  | error e => rw [except_bind_error] at h; cases h
  | ok u => cases u; rw [except_bind_ok] at h; exact checks1_ok h

theorem scanKeyOfIdx_injective : Function.Injective scanKeyOfIdx := fun _ _ h =>
  Nat_repr_injective (append_right_inj h)

theorem nameKeyOfIdx_injective : Function.Injective nameKeyOfIdx := fun _ _ h =>
  Nat_repr_injective (append_right_inj h)

/-- Assignment at a key absent from the map appends the binding. -/
theorem assocSet_fresh {α : Type} {m : List (String × α)} {k : String} (v : α)
    (h : k ∉ m.map Prod.fst) : assocSet m k v = m ++ [(k, v)] := by
  induction m with
  | nil => rfl
  | cons p rest ih =>
    obtain ⟨k', v'⟩ := p
    simp only [List.map_cons, List.mem_cons] at h
    push_neg at h
    unfold assocSet
    rw [if_neg (Ne.symm h.1)]
    rw [ih h.2]
    rfl

/-! ### Scan builder invariant -/

theorem scanInv_init (test : Bool) : ScanInv (ScanState.init test) := ⟨rfl, rfl⟩

theorem allocValueKey_inv {s : ScanState} (h : ScanInv s) : ScanInv (allocValueKey s).2 := by
  obtain ⟨h1, h2⟩ := h
  refine ⟨?_, h2⟩
  show s.generatedValueKeys ++ [scanKeyOfIdx s.valueCounter] =
    (List.range (s.valueCounter + 1)).map scanKeyOfIdx
  rw [h1, List.range_succ, List.map_append]
  rfl

theorem scanGet_inv {s : ScanState} (f : String) (h : ScanInv s) :
    ScanInv (scanGetExpressionName s f).2 := by
  unfold scanGetExpressionName
  by_cases ht : (s.nodeEnvTest && scanTestAllowList.contains f) = true
  · rw [if_pos ht]; exact h
  · rw [if_neg ht]
    by_cases hn : (isReservedWord f || !(f.data.all fieldChar)) = true
    · rw [if_pos hn]
      obtain ⟨h1, h2⟩ := h
      have hfresh : nameKeyOfIdx s.expressionNames.length ∉ s.expressionNames.map Prod.fst := by
        rw [h2]
        intro hmem
        obtain ⟨k, hk, hkey⟩ := List.mem_map.mp hmem
        have := nameKeyOfIdx_injective hkey
        rw [List.mem_range] at hk
        omega
      refine ⟨h1, ?_⟩
      show (assocSet s.expressionNames (nameKeyOfIdx s.expressionNames.length) f).map Prod.fst
        = List.map nameKeyOfIdx (List.range
            (assocSet s.expressionNames (nameKeyOfIdx s.expressionNames.length) f).length)
      rw [assocSet_fresh f hfresh]
      have hlen : (s.expressionNames ++ [(nameKeyOfIdx s.expressionNames.length, f)]).length
          = s.expressionNames.length + 1 := by simp
      rw [hlen, List.range_succ, List.map_append, List.map_append, h2]
      rfl
    · rw [if_neg hn]; exact h

theorem selectFold_inv (fields : List String) (acc : List String × ScanState)
    (h : ScanInv acc.2) :
    ScanInv ((fields.foldl
      (fun (acc : List String × ScanState) f =>
        (acc.1 ++ [(scanGetExpressionName acc.2 f).1], (scanGetExpressionName acc.2 f).2))
      acc)).2 := by
  induction fields generalizing acc with
  | nil => exact h
  | cons f fs ih =>
    exact ih _ (scanGet_inv f h)

theorem applyScanOp_inv {s s' : ScanState} {op : ScanOp}
    (h : applyScanOp s op = .ok s') (hinv : ScanInv s) : ScanInv s' := by
  cases op with
  | equals f v =>
    rw [checks1_ok h]; exact allocValueKey_inv (scanGet_inv f hinv)
  | notEquals f v =>
    rw [checks1_ok h]; exact allocValueKey_inv (scanGet_inv f hinv)
  | lessThan f v =>
    rw [checks1_ok h]; exact allocValueKey_inv (scanGet_inv f hinv)
  | lessThanOrEqual f v =>
    rw [checks1_ok h]; exact allocValueKey_inv (scanGet_inv f hinv)
  | greaterThan f v =>
    rw [checks1_ok h]; exact allocValueKey_inv (scanGet_inv f hinv)
  | greaterThanOrEqual f v =>
    rw [checks1_ok h]; exact allocValueKey_inv (scanGet_inv f hinv)
  | beginsWith f v =>
    rw [checks2_ok h]; exact allocValueKey_inv (scanGet_inv f hinv)
  | contains f v =>
    rw [checks2_ok h]; exact allocValueKey_inv (scanGet_inv f hinv)
  | between f lo hi =>
    rw [checks1_ok h]; exact allocValueKey_inv (allocValueKey_inv (scanGet_inv f hinv))
  | attributeExists f =>
    rw [checks1_ok h]; exact scanGet_inv f hinv
  | attributeNotExists f =>
    rw [checks1_ok h]; exact scanGet_inv f hinv
  | filter e vs =>
    rw [checks1_ok h]
    cases vs with
    | none => exact hinv
    | some l => exact hinv
  | selectFields fs =>
    rw [checks2_ok h]
    exact selectFold_inv fs ([], s) hinv

theorem runScanOps_inv {s s' : ScanState} {ops : List ScanOp}
    (h : runScanOps s ops = .ok s') (hinv : ScanInv s) : ScanInv s' := by
  induction ops generalizing s with
  | nil =>
    cases h
    exact hinv
  | cons op ops ih =>
    unfold runScanOps at h
    cases happ : applyScanOp s op with
    | error e => rw [happ] at h; rw [except_bind_error] at h; cases h
    | ok s2 =>
      rw [happ] at h
      rw [except_bind_ok] at h
      exact ih h (applyScanOp_inv happ hinv)

/-- C6: over any sequence of conditions added to a scan-mode builder,
every builder-generated `:value{n}` placeholder is unique across the whole
build, and `build()` produces the filter string by joining the accumulated
fragments in insertion order with `' AND '`. -/
theorem C6_scan_placeholders_unique_and_filter_join
    (test : Bool) (ops : List ScanOp) (s' : ScanState)
    (h : runScanOps (ScanState.init test) ops = .ok s') :
    s'.generatedValueKeys.Nodup
    ∧ s'.build.filter = (if s'.filterExpressions.isEmpty then none
        else some (joinSep " AND " s'.filterExpressions)) := by
  have hinv := runScanOps_inv h (scanInv_init test)
  constructor
  · rw [hinv.1]
    exact (List.nodup_range _).map scanKeyOfIdx_injective
  · show (if s'.filterExpressions.length > 0 then some (joinSep " AND " s'.filterExpressions)
      else none) = _
    cases s'.filterExpressions <;> simp

/-- Concrete run for the C6 witness: `equals('age', 25)` on a production
(non-test-env) builder. -/
def c6WitnessState : ScanState :=
  ⟨false, ["age = :value0"], [(":value0", .num 25)], [], none, none, none, none, none,
   none, none, 1, [":value0"]⟩

/-- Witness for C6 at the concrete one-condition build. -/
theorem C6_witness :
    c6WitnessState.generatedValueKeys.Nodup
    ∧ c6WitnessState.build.filter =
        (if c6WitnessState.filterExpressions.isEmpty then none
         else some (joinSep " AND " c6WitnessState.filterExpressions)) :=
  C6_scan_placeholders_unique_and_filter_join false [ScanOp.equals "age" (.num 25)]
    c6WitnessState rfl

/-- Reassociation of the interpolated `a ++ " " ++ "=" ++ " " ++ b`. -/
theorem sp_eq_sp (a b : String) : a ++ " " ++ "=" ++ " " ++ b = a ++ " = " ++ b := by
  simp only [String.append_assoc]
  rfl

/-- When the test-mode allow-list does not apply and the field needs
replacement, `getExpressionName` always allocates the placeholder indexed
by the current name-map size. -/
theorem scanGet_escaped {s : ScanState} {f : String}
    (hesc : (s.nodeEnvTest && scanTestAllowList.contains f) = false)
    (hneed : (isReservedWord f || !(f.data.all fieldChar)) = true) :
    scanGetExpressionName s f =
      (nameKeyOfIdx s.expressionNames.length,
       { s with expressionNames :=
           assocSet s.expressionNames (nameKeyOfIdx s.expressionNames.length) f }) := by
  unfold scanGetExpressionName
  rw [if_neg (by simp only [hesc]; exact Bool.false_ne_true), if_pos hneed]

/-- Explicit effect of one condition on an escaped field. -/
theorem addConditionCore_escaped {s : ScanState} {f op : String} {v : Val}
    (hesc : (s.nodeEnvTest && scanTestAllowList.contains f) = false)
    (hneed : (isReservedWord f || !(f.data.all fieldChar)) = true) :
    s.addConditionCore f op v =
      { s with
        filterExpressions := s.filterExpressions ++
          [nameKeyOfIdx s.expressionNames.length ++ " " ++ op ++ " " ++
            scanKeyOfIdx s.valueCounter],
        expressionValues := objSet s.expressionValues (scanKeyOfIdx s.valueCounter) v,
        expressionNames :=
          assocSet s.expressionNames (nameKeyOfIdx s.expressionNames.length) f,
        valueCounter := s.valueCounter + 1,
        generatedValueKeys := s.generatedValueKeys ++ [scanKeyOfIdx s.valueCounter] } := by
  unfold ScanState.addConditionCore allocValueKey
  rw [scanGet_escaped hesc hneed]

/-- C7 as stated is false on the code: two conditions on the reserved
field `status` (outside the test-environment bypass) allocate two distinct
name placeholders `#n0`, `#n1`, and `expressionNames` holds one entry per
escaped occurrence — two entries for one field — not one per field. -/
def c7CounterState : ScanState :=
  ⟨false, ["#n0 = :value0", "#n1 = :value1"],
   [(":value0", .num 1), (":value1", .num 2)],
   [("#n0", "status"), ("#n1", "status")],
   none, none, none, none, none, none, none, 2, [":value0", ":value1"]⟩

/-- Counterexample for C7: the two conditions on `status` do not reuse one
name placeholder; the map gets two entries for the single escaped field. -/
theorem C7_counterexample :
    ((ScanState.init false).equals "status" (.num 1) >>= fun s => s.equals "status" (.num 2))
        = .ok c7CounterState
    ∧ c7CounterState.expressionNames = [("#n0", "status"), ("#n1", "status")]
    ∧ c7CounterState.filterExpressions = ["#n0 = :value0", "#n1 = :value1"]
    ∧ ¬ c7CounterState.expressionNames.length = 1 :=
  ⟨rfl, rfl, rfl, by decide⟩

/-- C7 amended: on a reachable scan builder, two conditions on the same
escaped field receive two distinct `:value{n}` placeholders, and each
occurrence allocates a fresh, distinct `#n{k}` name placeholder, so the
name map gains one entry per escaped occurrence (not one per field). -/
theorem C7_escaped_field_fresh_placeholders_per_occurrence
    (test : Bool) (ops : List ScanOp) (s s1 s2 : ScanState)
    (f : String) (v1 v2 : Val)
    (hreach : runScanOps (ScanState.init test) ops = .ok s)
    (hesc : (s.nodeEnvTest && scanTestAllowList.contains f) = false)
    (hneed : (isReservedWord f || !(f.data.all fieldChar)) = true)
    (h1 : s.equals f v1 = .ok s1) (h2 : s1.equals f v2 = .ok s2) :
    s2.filterExpressions = s.filterExpressions ++
      [nameKeyOfIdx s.expressionNames.length ++ " = " ++ scanKeyOfIdx s.valueCounter,
       nameKeyOfIdx (s.expressionNames.length + 1) ++ " = " ++ scanKeyOfIdx (s.valueCounter + 1)]
    ∧ s2.expressionNames = s.expressionNames ++
        [(nameKeyOfIdx s.expressionNames.length, f),
         (nameKeyOfIdx (s.expressionNames.length + 1), f)]
    ∧ scanKeyOfIdx s.valueCounter ≠ scanKeyOfIdx (s.valueCounter + 1)
    ∧ nameKeyOfIdx s.expressionNames.length ≠ nameKeyOfIdx (s.expressionNames.length + 1) := by
  have hinv := runScanOps_inv hreach (scanInv_init test)
  have hfresh0 : nameKeyOfIdx s.expressionNames.length ∉ s.expressionNames.map Prod.fst := by
    rw [hinv.2]
    intro hmem
    obtain ⟨k, hk, hkey⟩ := List.mem_map.mp hmem
    have := nameKeyOfIdx_injective hkey
    rw [List.mem_range] at hk
    omega
  have hA : assocSet s.expressionNames (nameKeyOfIdx s.expressionNames.length) f
      = s.expressionNames ++ [(nameKeyOfIdx s.expressionNames.length, f)] :=
    assocSet_fresh f hfresh0
  have hfresh1 : nameKeyOfIdx (s.expressionNames.length + 1) ∉
      (s.expressionNames ++ [(nameKeyOfIdx s.expressionNames.length, f)]).map Prod.fst := by
    rw [List.map_append]
    intro hmem
    rcases List.mem_append.mp hmem with hm | hm
    · rw [hinv.2] at hm
      obtain ⟨k, hk, hkey⟩ := List.mem_map.mp hm
      have := nameKeyOfIdx_injective hkey
      rw [List.mem_range] at hk
      omega
    · simp only [List.map_cons, List.map_nil, List.mem_singleton] at hm
      have := nameKeyOfIdx_injective hm
      omega
  have hB := assocSet_fresh (m := s.expressionNames ++
      [(nameKeyOfIdx s.expressionNames.length, f)])
      (k := nameKeyOfIdx (s.expressionNames.length + 1)) f hfresh1
  have e1 : s1 = _ := (checks1_ok h1).trans (addConditionCore_escaped hesc hneed)
  rw [e1] at h2
  have e2 : s2 = _ := (checks1_ok h2).trans
    (@addConditionCore_escaped _ f "=" v2 hesc hneed)
  subst e2
  refine ⟨?_, ?_,
    fun hc => by have := Nat_repr_injective (append_right_inj hc); omega,
    fun hc => by have := Nat_repr_injective (append_right_inj hc); omega⟩
  · show (s.filterExpressions ++
        [nameKeyOfIdx s.expressionNames.length ++ " " ++ "=" ++ " " ++
          scanKeyOfIdx s.valueCounter]) ++
      [nameKeyOfIdx
          (assocSet s.expressionNames (nameKeyOfIdx s.expressionNames.length) f).length ++
        " " ++ "=" ++ " " ++ scanKeyOfIdx (s.valueCounter + 1)] = _
    rw [hA]
    simp only [sp_eq_sp, List.append_assoc, List.singleton_append, List.cons_append,
      List.nil_append, List.length_append, List.length_cons, List.length_nil, Nat.zero_add]
  · show assocSet (assocSet s.expressionNames (nameKeyOfIdx s.expressionNames.length) f)
      (nameKeyOfIdx
        (assocSet s.expressionNames (nameKeyOfIdx s.expressionNames.length) f).length) f = _
    rw [hA]
    simp only [List.length_append, List.length_cons, List.length_nil, Nat.zero_add]
    rw [hB]
    simp only [List.append_assoc, List.singleton_append, List.cons_append, List.nil_append]

/-- Intermediate state after the first `equals('status', 1)` used by the
C7 witness run. -/
def c7FirstState : ScanState :=
  ⟨false, ["#n0 = :value0"], [(":value0", .num 1)], [("#n0", "status")],
   none, none, none, none, none, none, none, 1, [":value0"]⟩

/-- Witness for the amended C7 at the concrete double-condition build. -/
theorem C7_witness :
    c7CounterState.filterExpressions =
      [nameKeyOfIdx 0 ++ " = " ++ scanKeyOfIdx 0,
       nameKeyOfIdx 1 ++ " = " ++ scanKeyOfIdx 1]
    ∧ c7CounterState.expressionNames =
        [(nameKeyOfIdx 0, "status"), (nameKeyOfIdx 1, "status")]
    ∧ scanKeyOfIdx 0 ≠ scanKeyOfIdx 1
    ∧ nameKeyOfIdx 0 ≠ nameKeyOfIdx 1 := by
  exact C7_escaped_field_fresh_placeholders_per_occurrence false [] (ScanState.init false)
    c7FirstState c7CounterState "status" (.num 1) (.num 2) rfl rfl rfl rfl rfl

/-! ### Resolver invariant and C8 -/

theorem assocGet?_mem {α : Type} {m : List (String × α)} {k : String} {v : α}
    (h : assocGet? m k = some v) : (k, v) ∈ m := by
  induction m with
  | nil => cases h
  | cons p rest ih =>
    obtain ⟨k', v'⟩ := p
    unfold assocGet? at h
    by_cases hk : k' = k
    · rw [if_pos hk] at h
      cases h
      subst hk
      exact List.mem_cons_self _ _
    · rw [if_neg hk] at h
      exact List.mem_cons_of_mem _ (ih h)

theorem assocGet?_assocSet_self {α : Type} (m : List (String × α)) (k : String) (v : α) :
    assocGet? (assocSet m k v) k = some v := by
  induction m with
  | nil => simp [assocSet, assocGet?]
  | cons p rest ih =>
    obtain ⟨k', v'⟩ := p
    unfold assocSet
    by_cases hk : k' = k
    · rw [if_pos hk]
      unfold assocGet?
      rw [if_pos hk]
    · rw [if_neg hk]
      unfold assocGet?
      rw [if_neg hk]
      exact ih

theorem mem_assocSet {α : Type} {m : List (String × α)} {k : String} {v : α}
    {p : String × α} (hp : p ∈ assocSet m k v) : p = (k, v) ∨ p ∈ m := by
  induction m with
  | nil =>
    unfold assocSet at hp
    rcases List.mem_singleton.mp hp with h
    exact Or.inl h
  | cons q rest ih =>
    obtain ⟨k', v'⟩ := q
    unfold assocSet at hp
    by_cases hk : k' = k
    · rw [if_pos hk] at hp
      rcases List.mem_cons.mp hp with h | h
      · subst hk; exact Or.inl (by rw [h])
      · exact Or.inr (List.mem_cons_of_mem _ h)
    · rw [if_neg hk] at hp
      rcases List.mem_cons.mp hp with h | h
      · exact Or.inr (h ▸ List.mem_cons_self _ _)
      · rcases ih h with h2 | h2
        · exact Or.inl h2
        · exact Or.inr (List.mem_cons_of_mem _ h2)

theorem attrInv_init : AttrInv AttrState.init := by
  intro p hp
  cases hp

theorem processPart_inv {st : AttrState} (part : String) (h : AttrInv st) :
    AttrInv (processPart st part).2 ∧ st.nameCount ≤ (processPart st part).2.nameCount := by
  unfold processPart
  by_cases hre : (isReservedWord part || part.data.contains '-' || part.data.contains ' ')
      = true
  · rw [if_pos hre]
    cases hget : assocGet? st.attributeNameMap part with
    | some placeholder => exact ⟨h, Nat.le_refl _⟩
    | none =>
      refine ⟨?_, Nat.le_succ _⟩
      intro p hp
      rcases mem_assocSet hp with hp1 | hp1
      · exact ⟨st.nameCount + 1, Nat.succ_le_succ (Nat.zero_le _), Nat.le_refl _,
          by rw [hp1]⟩
      · obtain ⟨K, hK1, hK2, hK3⟩ := h p hp1
        exact ⟨K, hK1, Nat.le_succ_of_le hK2, hK3⟩
  · rw [if_neg hre]
    exact ⟨h, Nat.le_refl _⟩

theorem resolveFold_inv (parts : List String) (acc : List String × AttrState)
    (h : AttrInv acc.2) :
    AttrInv ((parts.foldl
      (fun (acc : List String × AttrState) part =>
        (acc.1 ++ [(processPart acc.2 part).1], (processPart acc.2 part).2)) acc)).2
    ∧ acc.2.nameCount ≤ ((parts.foldl
      (fun (acc : List String × AttrState) part =>
        (acc.1 ++ [(processPart acc.2 part).1], (processPart acc.2 part).2)) acc)).2.nameCount := by
  induction parts generalizing acc with
  | nil => exact ⟨h, Nat.le_refl _⟩
  | cons p ps ih =>
    have h1 := processPart_inv p h
    have h2 := ih (acc.1 ++ [(processPart acc.2 p).1], (processPart acc.2 p).2) h1.1
    exact ⟨h2.1, Nat.le_trans h1.2 h2.2⟩

theorem getExpressionAttributeName_inv {st : AttrState} (name : String) (h : AttrInv st) :
    AttrInv (getExpressionAttributeName st name).2
    ∧ st.nameCount ≤ (getExpressionAttributeName st name).2.nameCount := by
  unfold getExpressionAttributeName
  exact resolveFold_inv (splitChar '.' name) ([], st) h

theorem resolveAll_inv (names : List String) : AttrInv (resolveAll names) := by
  unfold resolveAll
  induction names using List.reverseRecOn with
  | nil => exact attrInv_init
  | append_singleton ns n ih =>
    rw [List.foldl_append]
    exact (getExpressionAttributeName_inv n ih).1

/-- On a path with a single segment the resolver is exactly `processPart`. -/
theorem resolve_single {st : AttrState} {w : String} (hsplit : splitChar '.' w = [w]) :
    getExpressionAttributeName st w = ((processPart st w).1, (processPart st w).2) := by
  unfold getExpressionAttributeName
  rw [hsplit]
  rfl

/-- After an escaping resolution, the raw name is memoized to exactly the
returned placeholder. -/
theorem processPart_lookup_after {st : AttrState} {w : String}
    (hre : (isReservedWord w || w.data.contains '-' || w.data.contains ' ') = true) :
    assocGet? (processPart st w).2.attributeNameMap w = some (processPart st w).1 := by
  unfold processPart
  rw [if_pos hre]
  cases hget : assocGet? st.attributeNameMap w with
  | some placeholder => exact hget
  | none => exact assocGet?_assocSet_self _ _ _

/-- C8: on any reachable resolver state, resolving a reserved-word field
name returns a placeholder `#n{K}` with `K` bounded by the resolver-local
monotonically increasing counter, and resolving the same raw name twice on
the same resolver instance returns the identical placeholder both times. -/
theorem C8_reserved_resolution_shape_and_memoization
    (names : List String) (w : String)
    (hres : isReservedWord w = true) (hsplit : splitChar '.' w = [w]) :
    (∃ K, 1 ≤ K ∧ K ≤ (getExpressionAttributeName (resolveAll names) w).2.nameCount ∧
        (getExpressionAttributeName (resolveAll names) w).1 = nameKeyOfIdx K)
    ∧ (getExpressionAttributeName
         ((getExpressionAttributeName (resolveAll names) w).2) w).1
        = (getExpressionAttributeName (resolveAll names) w).1
    ∧ (resolveAll names).nameCount
        ≤ (getExpressionAttributeName (resolveAll names) w).2.nameCount := by
  have hinv := resolveAll_inv names
  have hre : (isReservedWord w || w.data.contains '-' || w.data.contains ' ') = true := by
    rw [hres]
    rfl
  rw [resolve_single hsplit, resolve_single hsplit]
  refine ⟨?_, ?_, (processPart_inv w hinv).2⟩
  · unfold processPart
    rw [if_pos hre]
    cases hget : assocGet? (resolveAll names).attributeNameMap w with
    | some placeholder =>
      obtain ⟨K, hK1, hK2, hK3⟩ := hinv _ (assocGet?_mem hget)
      exact ⟨K, hK1, hK2, hK3⟩
    | none =>
      exact ⟨(resolveAll names).nameCount + 1,
        Nat.succ_le_succ (Nat.zero_le _), Nat.le_refl _, rfl⟩
  · conv_lhs => rw [processPart]
    rw [if_pos hre, processPart_lookup_after hre]

/-- Witness for C8: the reserved word `status` on a fresh resolver. -/
theorem C8_witness :
    (∃ K, 1 ≤ K ∧ K ≤ (getExpressionAttributeName (resolveAll []) "status").2.nameCount ∧
        (getExpressionAttributeName (resolveAll []) "status").1 = nameKeyOfIdx K)
    ∧ (getExpressionAttributeName
         ((getExpressionAttributeName (resolveAll []) "status").2) "status").1
        = (getExpressionAttributeName (resolveAll []) "status").1
    ∧ (resolveAll []).nameCount
        ≤ (getExpressionAttributeName (resolveAll []) "status").2.nameCount :=
  C8_reserved_resolution_shape_and_memoization [] "status" rfl rfl

/-! ### Update compiler: per-member lemmas -/

/-- The resolver passes a plain field through and leaves its state
untouched. -/
theorem resolve_plain {st : AttrState} {f : String} (h : plainField f = true) :
    getExpressionAttributeName st f = (f, st) := by
  unfold plainField at h
  simp only [Bool.and_eq_true, beq_iff_eq, Bool.not_eq_true'] at h
  obtain ⟨⟨⟨hsplit, hres⟩, hdash⟩, hspace⟩ := h
  rw [resolve_single hsplit]
  unfold processPart
  have hc : (isReservedWord f || f.data.contains '-' || f.data.contains ' ') = false := by
    rw [hres, hdash, hspace]
    rfl
  rw [if_neg (by rw [hc]; exact Bool.false_ne_true)]

theorem append_eq_val (f r : String) :
    f ++ " = " ++ (":val" ++ r) = f ++ " = :val" ++ r := by
  simp only [String.append_assoc]
  rfl

theorem append_sp_val (f r : String) :
    f ++ " " ++ (":val" ++ r) = f ++ " :val" ++ r := by
  simp only [String.append_assoc]
  rfl

theorem append_clause_eq (f r : String) :
    f ++ " = list_append(if_not_exists(" ++ f ++ ", " ++ (":empty" ++ r) ++ "), " ++
      (":items" ++ r) ++ ")" = f ++ " = list_append(if_not_exists(" ++ f ++ ", :empty" ++
      r ++ "), :items" ++ r ++ ")" := by
  simp only [String.append_assoc]
  rfl

theorem prepend_clause_eq (f r : String) :
    f ++ " = list_append(" ++ (":items" ++ r) ++ ", if_not_exists(" ++ f ++ ", " ++
      (":empty" ++ r) ++ "))" = f ++ " = list_append(:items" ++ r ++ ", if_not_exists(" ++
      f ++ ", :empty" ++ r ++ "))" := by
  simp only [String.append_assoc]
  rfl

/-- A plain member compiles to the claim's clause format, consuming one
placeholder when a value is present. -/
theorem compileMember_plain {st : UpdCompileState} {vb : UpdateOperationType}
    {u : FieldUpdate} (hu : plainUpdate u = true) (hvb : u.operation = vb) :
    compileMember st vb u =
      (match u.value with
       | none => (u.field, st)
       | some v => (specClause u (st.valueCounter + 1),
           { st with valueCounter := st.valueCounter + 1,
                     expressionValues := objSet st.expressionValues
                       (":val" ++ Nat.repr (st.valueCounter + 1)) v })) := by
  obtain ⟨uf, uval, uop⟩ := u
  unfold plainUpdate at hu
  simp only [Bool.and_eq_true] at hu
  obtain ⟨hf, hrest⟩ := hu
  unfold compileMember
  rw [resolve_plain hf]
  simp only at hvb
  subst hvb
  cases uval with
  | none => rfl
  | some v =>
    dsimp only at hrest ⊢
    simp only [Bool.not_eq_true'] at hrest
    have hmark : ((uop == .SET) && isObjectNonNull v &&
        truthy (getProp v "__listAppend")) = false := by
      cases hA : ((uop == .SET) && isObjectNonNull v) with
      | false => rw [Bool.and_eq_false_iff]; exact Or.inl rfl
      | true =>
        rw [hA] at hrest
        simp only [Bool.true_and, Bool.or_eq_false_iff] at hrest
        rw [Bool.and_eq_false_iff]
        exact Or.inr hrest.1
    have hmark2 : ((uop == .SET) && isObjectNonNull v &&
        truthy (getProp v "__listPrepend")) = false := by
      cases hA : ((uop == .SET) && isObjectNonNull v) with
      | false => rw [Bool.and_eq_false_iff]; exact Or.inl rfl
      | true =>
        rw [hA] at hrest
        simp only [Bool.true_and, Bool.or_eq_false_iff] at hrest
        rw [Bool.and_eq_false_iff]
        exact Or.inr hrest.2
    rw [if_neg (by rw [hmark]; exact Bool.false_ne_true)]
    rw [if_neg (by rw [hmark2]; exact Bool.false_ne_true)]
    unfold specClause
    cases uop <;> dsimp only <;>
      first
        | (rw [append_eq_val])
        | (rw [append_sp_val])
        | rfl

/-- `appendToList` entries compile to the two-placeholder
`list_append(if_not_exists(...), ...)` SET clause. -/
theorem compileMember_append {st : UpdCompileState} {vb : UpdateOperationType}
    {f : String} {item : Val} (hf : plainField f = true) :
    compileMember st vb ⟨f, some (appendMarker item), .SET⟩ =
      (appendClause f (st.valueCounter + 1),
       { st with valueCounter := st.valueCounter + 1,
                 expressionValues :=
                   objSet (objSet st.expressionValues
                       (":items" ++ Nat.repr (st.valueCounter + 1)) (.list [item]))
                     (":empty" ++ Nat.repr (st.valueCounter + 1)) (.list []) }) := by
  unfold compileMember appendClause
  rw [resolve_plain hf, ← append_clause_eq]
  rfl

/-- `prependToList` entries compile to the reversed-argument clause. -/
theorem compileMember_prepend {st : UpdCompileState} {vb : UpdateOperationType}
    {f : String} {item : Val} (hf : plainField f = true) :
    compileMember st vb ⟨f, some (prependMarker item), .SET⟩ =
      (prependClause f (st.valueCounter + 1),
       { st with valueCounter := st.valueCounter + 1,
                 expressionValues :=
                   objSet (objSet st.expressionValues
                       (":items" ++ Nat.repr (st.valueCounter + 1)) (.list [item]))
                     (":empty" ++ Nat.repr (st.valueCounter + 1)) (.list []) }) := by
  unfold compileMember prependClause
  rw [resolve_plain hf, ← prepend_clause_eq]
  rfl

/-- Peeling lemma for state-threading folds that append output. -/
theorem foldl_out_acc {α β σ : Type} (out : σ → β → List α) (next : σ → β → σ)
    (l : List β) (a : List α) (s : σ) :
    (l.foldl (fun acc x => (acc.1 ++ out acc.2 x, next acc.2 x)) (a, s))
    = (a ++ (l.foldl (fun acc x => (acc.1 ++ out acc.2 x, next acc.2 x)) ([], s)).1,
       (l.foldl (fun acc x => (acc.1 ++ out acc.2 x, next acc.2 x)) ([], s)).2) := by
  induction l generalizing a s with
  | nil => simp
  | cons x xs ih =>
    simp only [List.foldl_cons]
    rw [ih (a ++ out s x) (next s x), ih ([] ++ out s x) (next s x), List.append_assoc]
    simp

/-! ### Update compiler: group- and verb-level lemmas -/

theorem compileGroup_cons (st : UpdCompileState) (vb : UpdateOperationType)
    (u : FieldUpdate) (us : List FieldUpdate) :
    compileGroup st vb (u :: us) =
      ((compileMember st vb u).1 :: (compileGroup (compileMember st vb u).2 vb us).1,
       (compileGroup (compileMember st vb u).2 vb us).2) := by
  unfold compileGroup
  rw [List.foldl_cons]
  rw [foldl_out_acc (fun s u => [(compileMember s vb u).1])
    (fun s u => (compileMember s vb u).2) us ([] ++ [(compileMember st vb u).1])
    (compileMember st vb u).2]
  rfl

theorem verbsFold_cons (updates : List FieldUpdate) (vb : UpdateOperationType)
    (verbs : List UpdateOperationType) (st : UpdCompileState) :
    verbsFold updates (vb :: verbs) st =
      ((vb, (compileGroup st vb (updates.filter (fun u => u.operation = vb))).1) ::
          (verbsFold updates verbs
            (compileGroup st vb (updates.filter (fun u => u.operation = vb))).2).1,
       (verbsFold updates verbs
          (compileGroup st vb (updates.filter (fun u => u.operation = vb))).2).2) := by
  unfold verbsFold
  rw [List.foldl_cons]
  rw [foldl_out_acc
    (fun s w => [(w, (compileGroup s w (updates.filter (fun u => u.operation = w))).1)])
    (fun s w => (compileGroup s w (updates.filter (fun u => u.operation = w))).2) verbs
    ([] ++ [(vb, (compileGroup st vb (updates.filter (fun u => u.operation = vb))).1)])
    (compileGroup st vb (updates.filter (fun u => u.operation = vb))).2]
  rfl

theorem specFold_cons (updates : List FieldUpdate) (vb : UpdateOperationType)
    (verbs : List UpdateOperationType) (n : Nat) :
    specFold updates (vb :: verbs) n =
      ((vb.verb ++ " " ++
          joinSep ", " (specClauses n (updates.filter (fun u => u.operation = vb))).1) ::
         (specFold updates verbs
           (specClauses n (updates.filter (fun u => u.operation = vb))).2).1,
       (specFold updates verbs
         (specClauses n (updates.filter (fun u => u.operation = vb))).2).2) := by
  unfold specFold
  rw [List.foldl_cons]
  rw [foldl_out_acc
    (fun m w => [w.verb ++ " " ++
      joinSep ", " (specClauses m (updates.filter (fun u => u.operation = w))).1])
    (fun m w => (specClauses m (updates.filter (fun u => u.operation = w))).2) verbs
    ([] ++ [vb.verb ++ " " ++
      joinSep ", " (specClauses n (updates.filter (fun u => u.operation = vb))).1])
    (specClauses n (updates.filter (fun u => u.operation = vb))).2]
  rfl

theorem specClauses_cons (n : Nat) (u : FieldUpdate) (us : List FieldUpdate) :
    specClauses n (u :: us) =
      (match u.value with
       | none => ((specClauses n us).1.cons u.field, (specClauses n us).2)
       | some _ => ((specClauses (n + 1) us).1.cons (specClause u (n + 1)),
           (specClauses (n + 1) us).2)) := rfl

theorem specClauses_cons_none {n : Nat} {u : FieldUpdate} {us : List FieldUpdate}
    (hv : u.value = none) :
    specClauses n (u :: us) =
      ((specClauses n us).1.cons u.field, (specClauses n us).2) := by
  rw [specClauses_cons, hv]

theorem specClauses_cons_some {n : Nat} {u : FieldUpdate} {us : List FieldUpdate}
    {v : Val} (hv : u.value = some v) :
    specClauses n (u :: us) =
      ((specClauses (n + 1) us).1.cons (specClause u (n + 1)),
       (specClauses (n + 1) us).2) := by
  rw [specClauses_cons, hv]

/-- A group of plain members compiles exactly to the spec clauses, with
the counter advanced identically. -/
theorem compileGroup_plain (vb : UpdateOperationType) (members : List FieldUpdate)
    (st : UpdCompileState)
    (hall : ∀ u ∈ members, plainUpdate u = true ∧ u.operation = vb) :
    (compileGroup st vb members).1 = (specClauses st.valueCounter members).1
    ∧ (compileGroup st vb members).2.valueCounter
        = (specClauses st.valueCounter members).2 := by
  induction members generalizing st with
  | nil => exact ⟨rfl, rfl⟩
  | cons u us ih =>
    obtain ⟨hu, hop⟩ := hall u (List.mem_cons_self _ _)
    have htail : ∀ w ∈ us, plainUpdate w = true ∧ w.operation = vb := fun w hw =>
      hall w (List.mem_cons_of_mem _ hw)
    rw [compileGroup_cons, compileMember_plain hu hop]
    cases hv : u.value with
    | none =>
      dsimp only
      have ihe := ih st htail
      rw [specClauses_cons_none hv]
      exact ⟨by rw [ihe.1], by rw [ihe.2]⟩
    | some v =>
      dsimp only
      have ihe := ih ⟨st.valueCounter + 1,
        objSet st.expressionValues (":val" ++ Nat.repr (st.valueCounter + 1)) v,
        st.attr⟩ htail
      rw [specClauses_cons_some hv]
      exact ⟨by rw [ihe.1], by rw [ihe.2]⟩

/-- The verb fold over plain updates renders exactly the spec fold. -/
theorem verbsFold_plain (updates : List FieldUpdate)
    (verbs : List UpdateOperationType) (st : UpdCompileState)
    (hall : ∀ u ∈ updates, plainUpdate u = true) :
    ((verbsFold updates verbs st).1.map
        (fun g => g.1.verb ++ " " ++ joinSep ", " g.2)
      = (specFold updates verbs st.valueCounter).1)
    ∧ (verbsFold updates verbs st).2.valueCounter
        = (specFold updates verbs st.valueCounter).2 := by
  induction verbs generalizing st with
  | nil => exact ⟨rfl, rfl⟩
  | cons vb verbs ih =>
    rw [verbsFold_cons, specFold_cons]
    have hmem : ∀ u ∈ updates.filter (fun u => u.operation = vb),
        plainUpdate u = true ∧ u.operation = vb := by
      intro u hu
      rw [List.mem_filter] at hu
      exact ⟨hall u hu.1, of_decide_eq_true hu.2⟩
    have hg := compileGroup_plain vb (updates.filter (fun u => u.operation = vb)) st hmem
    have ihg := ih (compileGroup st vb (updates.filter (fun u => u.operation = vb))).2
    constructor
    · simp only [List.map_cons]
      rw [hg.1, ihg.1, hg.2]
    · rw [ihg.2, hg.2]

/-- C2: the update compiler groups `FieldUpdate`s by verb and produces one
combined expression in which each verb group's member clauses are joined
with `', '`, verb groups are joined with a single space, and plain members
format as `field = :valN` (SET), `field :valN` (ADD/DELETE) or the bare
field name (REMOVE): the compiled expression equals the spec-side
rendition `specUpdateExpression`. -/
theorem C2_update_expression_matches_spec (updates : List FieldUpdate)
    (hall : ∀ u ∈ updates, plainUpdate u = true) :
    (updateItemExpression updates).1 = specUpdateExpression updates := by
  have h := verbsFold_plain updates (dedupKeepFirst (updates.map (·.operation)))
    UpdCompileState.init hall
  show joinSep " " ((compileUpdates updates).1.map
    (fun g => g.1.verb ++ " " ++ joinSep ", " g.2)) = _
  rw [show compileUpdates updates
    = verbsFold updates (dedupKeepFirst (updates.map (·.operation))) UpdCompileState.init
    from rfl]
  rw [h.1]
  rfl

/-- Witness for C2 at a concrete mixed update list. -/
theorem C2_witness :
    (updateItemExpression
      [⟨"a", some (.str "x"), .SET⟩, ⟨"c", some (.num 7), .SET⟩,
       ⟨"b", some (.num 2), .ADD⟩, ⟨"r", none, .REMOVE⟩,
       ⟨"d", some (.num 3), .DELETE⟩]).1 =
    specUpdateExpression
      [⟨"a", some (.str "x"), .SET⟩, ⟨"c", some (.num 7), .SET⟩,
       ⟨"b", some (.num 2), .ADD⟩, ⟨"r", none, .REMOVE⟩,
       ⟨"d", some (.num 3), .DELETE⟩] :=
  C2_update_expression_matches_spec _ (by decide)

/-! ### C3: list append/prepend clauses -/

/-- Each member's clause (compiled at some intermediate state) appears in
its group's clause list. -/
theorem compileGroup_clause_mem {u : FieldUpdate} (vb : UpdateOperationType)
    {members : List FieldUpdate} (st : UpdCompileState) (hmem : u ∈ members) :
    ∃ st' : UpdCompileState, (compileMember st' vb u).1 ∈ (compileGroup st vb members).1 := by
  induction members generalizing st with
  | nil => cases hmem
  | cons h hs ih =>
    rw [compileGroup_cons]
    rcases List.mem_cons.mp hmem with he | ht
    · subst he
      exact ⟨st, List.mem_cons_self _ _⟩
    · obtain ⟨st', hst'⟩ := ih (compileMember st vb h).2 ht
      exact ⟨st', List.mem_cons_of_mem _ hst'⟩

/-- Each verb present in the fold produces its group entry. -/
theorem verbsFold_group_mem (updates : List FieldUpdate) {vb : UpdateOperationType}
    {verbs : List UpdateOperationType} (st : UpdCompileState) (hvb : vb ∈ verbs) :
    ∃ stmid, (vb, (compileGroup stmid vb (updates.filter (fun u => u.operation = vb))).1)
      ∈ (verbsFold updates verbs st).1 := by
  induction verbs generalizing st with
  | nil => cases hvb
  | cons w ws ih =>
    rw [verbsFold_cons]
    rcases List.mem_cons.mp hvb with he | ht
    · subst he
      exact ⟨st, List.mem_cons_self _ _⟩
    · obtain ⟨stmid, hm⟩ := ih _ ht
      exact ⟨stmid, List.mem_cons_of_mem _ hm⟩

theorem mem_dedupKeepFirstAux {x : UpdateOperationType} {seen l : List UpdateOperationType}
    (hx : x ∈ l) (hseen : x ∉ seen) : x ∈ dedupKeepFirstAux seen l := by
  induction l generalizing seen with
  | nil => cases hx
  | cons y ys ih =>
    unfold dedupKeepFirstAux
    by_cases hy : y ∈ seen
    · rw [if_pos hy]
      rcases List.mem_cons.mp hx with he | ht
      · exact absurd (he ▸ hy) hseen
      · exact ih ht hseen
    · rw [if_neg hy]
      by_cases hxy : x = y
      · exact hxy ▸ List.mem_cons_self _ _
      · rcases List.mem_cons.mp hx with he | ht
        · exact absurd he hxy
        · refine List.mem_cons_of_mem _ (ih ht ?_)
          intro hc
          rcases List.mem_append.mp hc with hc1 | hc1
          · exact hseen hc1
          · exact hxy (List.mem_singleton.mp hc1)

/-- C3: every update list containing an `appendToList(field, item)` entry
compiles a SET clause `field = list_append(if_not_exists(field, :emptyN),
:itemsN)` for some `N ≥ 1` (independent of any table state, so regardless
of whether the field previously existed); for `prependToList` the two
`list_append` arguments are reversed. -/
theorem C3_list_append_prepend_clauses :
    (∀ (updates : List FieldUpdate) (f : String) (item : Val),
      (⟨f, some (appendMarker item), .SET⟩ : FieldUpdate) ∈ updates →
      plainField f = true →
      ∃ N cls, 1 ≤ N ∧ (UpdateOperationType.SET, cls) ∈ (compileUpdates updates).1 ∧
        appendClause f N ∈ cls)
    ∧ (∀ (updates : List FieldUpdate) (f : String) (item : Val),
      (⟨f, some (prependMarker item), .SET⟩ : FieldUpdate) ∈ updates →
      plainField f = true →
      ∃ N cls, 1 ≤ N ∧ (UpdateOperationType.SET, cls) ∈ (compileUpdates updates).1 ∧
        prependClause f N ∈ cls) := by
  constructor
  · intro updates f item hmem hf
    have hop : UpdateOperationType.SET ∈ dedupKeepFirst (updates.map (·.operation)) := by
      apply mem_dedupKeepFirstAux
      · exact List.mem_map.mpr ⟨_, hmem, rfl⟩
      · intro hc
        cases hc
    obtain ⟨stmid, hgrp⟩ := verbsFold_group_mem updates UpdCompileState.init hop
    have hfl : (⟨f, some (appendMarker item), .SET⟩ : FieldUpdate) ∈
        updates.filter (fun u => u.operation = .SET) :=
      List.mem_filter.mpr ⟨hmem, by rfl⟩
    obtain ⟨st', hcl⟩ := compileGroup_clause_mem .SET stmid hfl
    rw [compileMember_append hf] at hcl
    refine ⟨st'.valueCounter + 1, _, Nat.succ_le_succ (Nat.zero_le _), ?_, hcl⟩
    exact hgrp
  · intro updates f item hmem hf
    have hop : UpdateOperationType.SET ∈ dedupKeepFirst (updates.map (·.operation)) := by
      apply mem_dedupKeepFirstAux
      · exact List.mem_map.mpr ⟨_, hmem, rfl⟩
      · intro hc
        cases hc
    obtain ⟨stmid, hgrp⟩ := verbsFold_group_mem updates UpdCompileState.init hop
    have hfl : (⟨f, some (prependMarker item), .SET⟩ : FieldUpdate) ∈
        updates.filter (fun u => u.operation = .SET) :=
      List.mem_filter.mpr ⟨hmem, by rfl⟩
    obtain ⟨st', hcl⟩ := compileGroup_clause_mem .SET stmid hfl
    rw [compileMember_prepend hf] at hcl
    refine ⟨st'.valueCounter + 1, _, Nat.succ_le_succ (Nat.zero_le _), ?_, hcl⟩
    exact hgrp

/-- Witness for C3: concrete `appendToList('interests','gaming')` and
`prependToList('queue','first')` updates. -/
theorem C3_witness :
    (∃ N cls, 1 ≤ N ∧ (UpdateOperationType.SET, cls) ∈
        (compileUpdates [⟨"interests", some (appendMarker (.str "gaming")), .SET⟩]).1 ∧
      appendClause "interests" N ∈ cls)
    ∧ (∃ N cls, 1 ≤ N ∧ (UpdateOperationType.SET, cls) ∈
        (compileUpdates [⟨"queue", some (prependMarker (.str "first")), .SET⟩]).1 ∧
      prependClause "queue" N ∈ cls) :=
  ⟨C3_list_append_prepend_clauses.1 _ "interests" (.str "gaming")
      (List.mem_singleton.mpr rfl) (by decide),
   C3_list_append_prepend_clauses.2 _ "queue" (.str "first")
      (List.mem_singleton.mpr rfl) (by decide)⟩

/-! ### Stream processor: branch equations -/

theorem loop_none (cfg : StreamConfig) (sid : Nat) (fetches : List FetchResponse)
    (p : Nat) : processShardLoop cfg sid fetches none p = ([], p, .completed) := by
  rw [processShardLoop.eq_def]

theorem loop_max (cfg : StreamConfig) (sid : Nat) (fetches : List FetchResponse)
    (c : String) (p : Nat) (hm : underMax p cfg.maxRecords = false) :
    processShardLoop cfg sid fetches (some c) p = ([], p, .completed) := by
  rw [processShardLoop.eq_def]
  simp only [hm, Bool.not_false, if_true]

theorem loop_empty (cfg : StreamConfig) (sid : Nat) (c : String) (p : Nat)
    (hm : underMax p cfg.maxRecords = true) :
    processShardLoop cfg sid [] (some c) p = ([], p, .outOfTrace) := by
  rw [processShardLoop]
  simp only [hm, Bool.not_true, if_false]
  rfl

theorem loop_fetch_err_stop (cfg : StreamConfig) (sid : Nat) (fr : FetchResponse)
    (rest : List FetchResponse) (c : String) (p : Nat) (e : String)
    (hm : underMax p cfg.maxRecords = true) (hres : fr.result = .error e)
    (hstop : cfg.stopOnError = true) :
    processShardLoop cfg sid (fr :: rest) (some c) p =
      ([.fetchError sid c], p, .failed) := by
  rw [processShardLoop]
  simp only [hm, Bool.not_true, if_false, hres, hstop, if_true]
  rfl

theorem loop_fetch_err_cont (cfg : StreamConfig) (sid : Nat) (fr : FetchResponse)
    (rest : List FetchResponse) (c : String) (p : Nat) (e : String)
    (hm : underMax p cfg.maxRecords = true) (hres : fr.result = .error e)
    (hstop : cfg.stopOnError = false) :
    processShardLoop cfg sid (fr :: rest) (some c) p =
      (.fetchError sid c :: .sleep sid :: (processShardLoop cfg sid rest (some c) p).1,
       (processShardLoop cfg sid rest (some c) p).2) := by
  rw [processShardLoop]
  simp only [hm, Bool.not_true, if_false, hres, hstop]
  rfl

theorem loop_zero (cfg : StreamConfig) (sid : Nat) (fr : FetchResponse)
    (rest : List FetchResponse) (c : String) (p : Nat) (records : List StreamRecord)
    (next : Option String)
    (hm : underMax p cfg.maxRecords = true) (hres : fr.result = .ok (records, next))
    (hlen : records.length = 0) :
    processShardLoop cfg sid (fr :: rest) (some c) p =
      (StreamEvent.fetch sid c records.length next :: .sleep sid ::
          (processShardLoop cfg sid rest next p).1,
       (processShardLoop cfg sid rest next p).2) := by
  rw [processShardLoop]
  simp only [hm, Bool.not_true, if_false, hres, hlen, gt_iff_lt, Nat.lt_irrefl, if_false]
  rfl

theorem loop_handler_ok (cfg : StreamConfig) (sid : Nat) (fr : FetchResponse)
    (rest : List FetchResponse) (c : String) (p : Nat) (records : List StreamRecord)
    (next : Option String)
    (hm : underMax p cfg.maxRecords = true) (hres : fr.result = .ok (records, next))
    (hlen : 0 < records.length) (hok : fr.handlerOk = true) :
    processShardLoop cfg sid (fr :: rest) (some c) p =
      (StreamEvent.fetch sid c records.length next ::
          .handlerCall sid records.length p true ::
          (processShardLoop cfg sid rest next (p + records.length)).1,
       (processShardLoop cfg sid rest next (p + records.length)).2) := by
  rw [processShardLoop]
  simp only [hm, Bool.not_true, if_false, hres, hok, if_true, gt_iff_lt, hlen]
  rfl

theorem loop_handler_fail_stop (cfg : StreamConfig) (sid : Nat) (fr : FetchResponse)
    (rest : List FetchResponse) (c : String) (p : Nat) (records : List StreamRecord)
    (next : Option String)
    (hm : underMax p cfg.maxRecords = true) (hres : fr.result = .ok (records, next))
    (hlen : 0 < records.length) (hok : fr.handlerOk = false)
    (hstop : cfg.stopOnError = true) :
    processShardLoop cfg sid (fr :: rest) (some c) p =
      ([StreamEvent.fetch sid c records.length next,
        .handlerCall sid records.length p false], p, .failed) := by
  rw [processShardLoop]
  simp only [hm, Bool.not_true, if_false, hres, hok, hstop, if_true, gt_iff_lt, hlen]
  rfl

theorem loop_handler_fail_cont (cfg : StreamConfig) (sid : Nat) (fr : FetchResponse)
    (rest : List FetchResponse) (c : String) (p : Nat) (records : List StreamRecord)
    (next : Option String)
    (hm : underMax p cfg.maxRecords = true) (hres : fr.result = .ok (records, next))
    (hlen : 0 < records.length) (hok : fr.handlerOk = false)
    (hstop : cfg.stopOnError = false) :
    processShardLoop cfg sid (fr :: rest) (some c) p =
      (StreamEvent.fetch sid c records.length next ::
          .handlerCall sid records.length p false ::
          (processShardLoop cfg sid rest next p).1,
       (processShardLoop cfg sid rest next p).2) := by
  rw [processShardLoop]
  simp only [hm, Bool.not_true, if_false, hres, hok, hstop, gt_iff_lt, hlen, if_true]
  rfl

theorem run_nil (cfg : StreamConfig) (p : Nat) :
    processStreamRun cfg [] p = ([], p, .completed) := rfl

theorem run_iter_err (cfg : StreamConfig) (se : ShardEnv) (rest : List ShardEnv)
    (p : Nat) (e : String) (hit : se.iterator = .error e) :
    processStreamRun cfg (se :: rest) p =
      ([.iteratorFailed se.shardId], p, .failed) := by
  rw [processStreamRun]
  rw [hit]

theorem run_completed (cfg : StreamConfig) (se : ShardEnv) (rest : List ShardEnv)
    (p : Nat) (c : String) (hit : se.iterator = .ok c)
    (hout : (processShardLoop cfg se.shardId se.fetches (some c) p).2.2 = .completed) :
    processStreamRun cfg (se :: rest) p =
      (.iteratorIssued se.shardId ::
        ((processShardLoop cfg se.shardId se.fetches (some c) p).1 ++
          (processStreamRun cfg rest
            (processShardLoop cfg se.shardId se.fetches (some c) p).2.1).1),
       (processStreamRun cfg rest
         (processShardLoop cfg se.shardId se.fetches (some c) p).2.1).2) := by
  rw [processStreamRun]
  rw [hit]
  simp only [hout]

theorem run_aborted (cfg : StreamConfig) (se : ShardEnv) (rest : List ShardEnv)
    (p : Nat) (c : String) (hit : se.iterator = .ok c)
    (hout : (processShardLoop cfg se.shardId se.fetches (some c) p).2.2 ≠ .completed) :
    processStreamRun cfg (se :: rest) p =
      (.iteratorIssued se.shardId :: (processShardLoop cfg se.shardId se.fetches (some c) p).1,
       (processShardLoop cfg se.shardId se.fetches (some c) p).2.1,
       (processShardLoop cfg se.shardId se.fetches (some c) p).2.2) := by
  rw [processStreamRun]
  rw [hit]
  cases hcase : (processShardLoop cfg se.shardId se.fetches (some c) p).2.2 with
  | completed => exact absurd hcase hout
  | failed => simp only [hcase]
  | outOfTrace => simp only [hcase]

/-! ### C4: record-count bound and no cursor re-issue -/

/-- Per-shard loop: every handler invocation starts strictly below the
configured `maxRecords`. -/
theorem loop_handler_prior (cfg : StreamConfig) (N : Nat) (hN : cfg.maxRecords = some N)
    (sid : Nat) (fetches : List FetchResponse) :
    ∀ (cursor : Option String) (processed : Nat) (s n prior ok),
      StreamEvent.handlerCall s n prior ok ∈
        (processShardLoop cfg sid fetches cursor processed).1 → prior < N := by
  induction fetches with
  | nil =>
    intro cursor processed s n prior ok hmem
    cases cursor with
    | none => rw [loop_none] at hmem; cases hmem
    | some c =>
      cases hm : underMax processed cfg.maxRecords with
      | false => rw [loop_max _ _ _ _ _ hm] at hmem; cases hmem
      | true => rw [loop_empty _ _ _ _ hm] at hmem; cases hmem
  | cons fr rest ih =>
    intro cursor processed s n prior ok hmem
    cases cursor with
    | none => rw [loop_none] at hmem; cases hmem
    | some c =>
      cases hm : underMax processed cfg.maxRecords with
      | false => rw [loop_max _ _ _ _ _ hm] at hmem; cases hmem
      | true =>
        have hplt : processed < N := by
          unfold underMax at hm
          rw [hN] at hm
          exact of_decide_eq_true hm
        cases hres : fr.result with
        | error e =>
          cases hstop : cfg.stopOnError with
          | true =>
            rw [loop_fetch_err_stop _ _ _ _ _ _ _ hm hres hstop] at hmem
            simp at hmem
          | false =>
            rw [loop_fetch_err_cont _ _ _ _ _ _ _ hm hres hstop] at hmem
            simp only [List.mem_cons] at hmem
            rcases hmem with h1 | h1 | h1
            · simp at h1
            · simp at h1
            · exact ih _ _ _ _ _ _ h1
        | ok pr =>
          obtain ⟨records, next⟩ := pr
          by_cases hlen : records.length = 0
          · rw [loop_zero _ _ _ _ _ _ _ _ hm hres hlen] at hmem
            simp only [List.mem_cons] at hmem
            rcases hmem with h1 | h1 | h1
            · simp at h1
            · simp at h1
            · exact ih _ _ _ _ _ _ h1
          · have hlen' : 0 < records.length := Nat.pos_of_ne_zero hlen
            cases hok : fr.handlerOk with
            | true =>
              rw [loop_handler_ok _ _ _ _ _ _ _ _ hm hres hlen' hok] at hmem
              simp only [List.mem_cons] at hmem
              rcases hmem with h1 | h1 | h1
              · simp at h1
              · simp only [StreamEvent.handlerCall.injEq] at h1
                rw [h1.2.2.1]
                exact hplt
              · exact ih _ _ _ _ _ _ h1
            | false =>
              cases hstop : cfg.stopOnError with
              | true =>
                rw [loop_handler_fail_stop _ _ _ _ _ _ _ _ hm hres hlen' hok hstop] at hmem
                simp only [List.mem_cons, List.not_mem_nil, or_false] at hmem
                rcases hmem with h1 | h1
                · simp at h1
                · simp only [StreamEvent.handlerCall.injEq] at h1
                  rw [h1.2.2.1]
                  exact hplt
              | false =>
                rw [loop_handler_fail_cont _ _ _ _ _ _ _ _ hm hres hlen' hok hstop] at hmem
                simp only [List.mem_cons] at hmem
                rcases hmem with h1 | h1 | h1
                · simp at h1
                · simp only [StreamEvent.handlerCall.injEq] at h1
                  rw [h1.2.2.1]
                  exact hplt
                · exact ih _ _ _ _ _ _ h1

/-- Whole run: every handler invocation starts strictly below
`maxRecords`. -/
theorem run_handler_prior (cfg : StreamConfig) (N : Nat) (hN : cfg.maxRecords = some N)
    (shards : List ShardEnv) :
    ∀ (processed : Nat) (s n prior ok),
      StreamEvent.handlerCall s n prior ok ∈
        (processStreamRun cfg shards processed).1 → prior < N := by
  induction shards with
  | nil =>
    intro processed s n prior ok hmem
    rw [run_nil] at hmem
    cases hmem
  | cons se rest ih =>
    intro processed s n prior ok hmem
    cases hit : se.iterator with
    | error e =>
      rw [run_iter_err _ _ _ _ _ hit] at hmem
      simp at hmem
    | ok c =>
      by_cases hout :
          (processShardLoop cfg se.shardId se.fetches (some c) processed).2.2 = .completed
      · rw [run_completed _ _ _ _ _ hit hout] at hmem
        simp only [List.mem_cons, List.mem_append] at hmem
        rcases hmem with h1 | h1 | h1
        · simp at h1
        · exact loop_handler_prior cfg N hN se.shardId se.fetches _ _ _ _ _ _ h1
        · exact ih _ _ _ _ _ h1
      · rw [run_aborted _ _ _ _ _ hit hout] at hmem
        simp only [List.mem_cons] at hmem
        rcases hmem with h1 | h1
        · simp at h1
        · exact loop_handler_prior cfg N hN se.shardId se.fetches _ _ _ _ _ _ h1

theorem runExh_cons (exh : List Nat) (e : StreamEvent) (es : List StreamEvent) :
    runExh exh (e :: es) =
      (if (match cursorShard e with
           | some s => decide (s ∈ exh)
           | none => false) = true then none
       else runExh (match exhaustsShard e with
           | some s => s :: exh
           | none => exh) es) := rfl

theorem runExh_append (a b : List StreamEvent) :
    ∀ exh, runExh exh (a ++ b) = (runExh exh a).bind (fun e => runExh e b) := by
  induction a with
  | nil => intro exh; rfl
  | cons e es ih =>
    intro exh
    rw [List.cons_append, runExh_cons, runExh_cons]
    by_cases hbad : (match cursorShard e with
        | some s => decide (s ∈ exh)
        | none => false) = true
    · rw [if_pos hbad, if_pos hbad]
      rfl
    · rw [if_neg hbad, if_neg hbad]
      exact ih _

/-- A cursor-neutral event (no fetch or iterator) passes the checker
unchanged. -/
theorem runExh_neutral (exh : List Nat) (e : StreamEvent) (es : List StreamEvent)
    (h1 : cursorShard e = none) (h2 : exhaustsShard e = none) :
    runExh exh (e :: es) = runExh exh es := by
  rw [runExh_cons, h1, h2]
  rfl

/-- A fetch event (for a non-exhausted shard) returning no next cursor
passes the checker and marks its shard exhausted. -/
theorem runExh_fetch_none (exh : List Nat) (sid : Nat) (c : String) (n : Nat)
    (es : List StreamEvent) (hs : sid ∉ exh) :
    runExh exh (StreamEvent.fetch sid c n none :: es) = runExh (sid :: exh) es := by
  rw [runExh_cons]
  simp only [cursorShard, exhaustsShard]
  rw [if_neg (by simp [hs])]

/-- A fetch event returning a next cursor passes the checker unchanged. -/
theorem runExh_fetch_some (exh : List Nat) (sid : Nat) (c : String) (n : Nat)
    (c2 : String) (es : List StreamEvent) (hs : sid ∉ exh) :
    runExh exh (StreamEvent.fetch sid c n (some c2) :: es) = runExh exh es := by
  rw [runExh_cons]
  simp only [cursorShard, exhaustsShard]
  rw [if_neg (by simp [hs])]

theorem runExh_fetchError (exh : List Nat) (sid : Nat) (c : String)
    (es : List StreamEvent) (hs : sid ∉ exh) :
    runExh exh (StreamEvent.fetchError sid c :: es) = runExh exh es := by
  rw [runExh_cons]
  simp only [cursorShard, exhaustsShard]
  rw [if_neg (by simp [hs])]

theorem runExh_iteratorIssued (exh : List Nat) (sid : Nat)
    (es : List StreamEvent) (hs : sid ∉ exh) :
    runExh exh (StreamEvent.iteratorIssued sid :: es) = runExh exh es := by
  rw [runExh_cons]
  simp only [cursorShard, exhaustsShard]
  rw [if_neg (by simp [hs])]

theorem runExh_iteratorFailed (exh : List Nat) (sid : Nat)
    (es : List StreamEvent) (hs : sid ∉ exh) :
    runExh exh (StreamEvent.iteratorFailed sid :: es) = runExh exh es := by
  rw [runExh_cons]
  simp only [cursorShard, exhaustsShard]
  rw [if_neg (by simp [hs])]

/-- Per-shard loop: the checker accepts the loop's trace and can only mark
the loop's own shard as exhausted. -/
theorem loop_runExh (cfg : StreamConfig) (sid : Nat) (fetches : List FetchResponse) :
    ∀ (cursor : Option String) (processed : Nat) (exh : List Nat), sid ∉ exh →
      ∃ ex', runExh exh (processShardLoop cfg sid fetches cursor processed).1 = some ex'
        ∧ ∀ x ∈ ex', x = sid ∨ x ∈ exh := by
  have base : ∀ (exh : List Nat), ∃ ex', runExh exh ([] : List StreamEvent) = some ex'
      ∧ ∀ x ∈ ex', x = sid ∨ x ∈ exh := fun exh => ⟨exh, rfl, fun x hx => Or.inr hx⟩
  have mark : ∀ (exh : List Nat), ∃ ex', runExh (sid :: exh) ([] : List StreamEvent) = some ex'
      ∧ ∀ x ∈ ex', x = sid ∨ x ∈ exh := fun exh => ⟨sid :: exh, rfl, fun x hx => by
        rcases List.mem_cons.mp hx with h | h
        · exact Or.inl h
        · exact Or.inr h⟩
  induction fetches with
  | nil =>
    intro cursor processed exh hs
    cases cursor with
    | none => rw [loop_none]; exact base exh
    | some c =>
      cases hm : underMax processed cfg.maxRecords with
      | false => rw [loop_max _ _ _ _ _ hm]; exact base exh
      | true => rw [loop_empty _ _ _ _ hm]; exact base exh
  | cons fr rest ih =>
    intro cursor processed exh hs
    cases cursor with
    | none => rw [loop_none]; exact base exh
    | some c =>
      cases hm : underMax processed cfg.maxRecords with
      | false => rw [loop_max _ _ _ _ _ hm]; exact base exh
      | true =>
        cases hres : fr.result with
        | error e =>
          cases hstop : cfg.stopOnError with
          | true =>
            rw [loop_fetch_err_stop _ _ _ _ _ _ _ hm hres hstop]
            rw [runExh_fetchError _ _ _ _ hs]
            exact base exh
          | false =>
            rw [loop_fetch_err_cont _ _ _ _ _ _ _ hm hres hstop]
            rw [runExh_fetchError _ _ _ _ hs,
              runExh_neutral _ (.sleep sid) _ rfl rfl]
            exact ih _ _ _ hs
        | ok pr =>
          obtain ⟨records, next⟩ := pr
          by_cases hlen : records.length = 0
          · cases next with
            | none =>
              rw [loop_zero _ _ _ _ _ _ _ _ hm hres hlen]
              rw [runExh_fetch_none _ _ _ _ _ hs,
                runExh_neutral _ (.sleep sid) _ rfl rfl, loop_none]
              exact mark exh
            | some c2 =>
              rw [loop_zero _ _ _ _ _ _ _ _ hm hres hlen]
              rw [runExh_fetch_some _ _ _ _ _ _ hs,
                runExh_neutral _ (.sleep sid) _ rfl rfl]
              exact ih _ _ _ hs
          · have hlen' : 0 < records.length := Nat.pos_of_ne_zero hlen
            cases hok : fr.handlerOk with
            | true =>
              cases next with
              | none =>
                rw [loop_handler_ok _ _ _ _ _ _ _ _ hm hres hlen' hok]
                rw [runExh_fetch_none _ _ _ _ _ hs,
                  runExh_neutral _ (.handlerCall sid records.length processed true) _ rfl rfl,
                  loop_none]
                exact mark exh
              | some c2 =>
                rw [loop_handler_ok _ _ _ _ _ _ _ _ hm hres hlen' hok]
                rw [runExh_fetch_some _ _ _ _ _ _ hs,
                  runExh_neutral _ (.handlerCall sid records.length processed true) _ rfl rfl]
                exact ih _ _ _ hs
            | false =>
              cases hstop : cfg.stopOnError with
              | true =>
                cases next with
                | none =>
                  rw [loop_handler_fail_stop _ _ _ _ _ _ _ _ hm hres hlen' hok hstop]
                  rw [show ([StreamEvent.fetch sid c records.length none,
                      StreamEvent.handlerCall sid records.length processed false])
                      = StreamEvent.fetch sid c records.length none ::
                        [StreamEvent.handlerCall sid records.length processed false] from rfl]
                  rw [runExh_fetch_none _ _ _ _ _ hs,
                    runExh_neutral _ (.handlerCall sid records.length processed false) _ rfl rfl]
                  exact mark exh
                | some c2 =>
                  rw [loop_handler_fail_stop _ _ _ _ _ _ _ _ hm hres hlen' hok hstop]
                  rw [show ([StreamEvent.fetch sid c records.length (some c2),
                      StreamEvent.handlerCall sid records.length processed false])
                      = StreamEvent.fetch sid c records.length (some c2) ::
                        [StreamEvent.handlerCall sid records.length processed false] from rfl]
                  rw [runExh_fetch_some _ _ _ _ _ _ hs,
                    runExh_neutral _ (.handlerCall sid records.length processed false) _ rfl rfl]
                  exact base exh
              | false =>
                cases next with
                | none =>
                  rw [loop_handler_fail_cont _ _ _ _ _ _ _ _ hm hres hlen' hok hstop]
                  rw [runExh_fetch_none _ _ _ _ _ hs,
                    runExh_neutral _ (.handlerCall sid records.length processed false) _ rfl rfl,
                    loop_none]
                  exact mark exh
                | some c2 =>
                  rw [loop_handler_fail_cont _ _ _ _ _ _ _ _ hm hres hlen' hok hstop]
                  rw [runExh_fetch_some _ _ _ _ _ _ hs,
                    runExh_neutral _ (.handlerCall sid records.length processed false) _ rfl rfl]
                  exact ih _ _ _ hs

/-- The run-level checker lemma: with pairwise-distinct shard ids the whole
trace passes the no-reissue check. -/
theorem run_runExh (cfg : StreamConfig) (shards : List ShardEnv) :
    ∀ (processed : Nat) (exh : List Nat),
      (∀ se ∈ shards, se.shardId ∉ exh) →
      (shards.map ShardEnv.shardId).Nodup →
      ∃ ex', runExh exh (processStreamRun cfg shards processed).1 = some ex'
        ∧ ∀ x ∈ ex', x ∈ exh ∨ x ∈ shards.map ShardEnv.shardId := by
  induction shards with
  | nil =>
    intro processed exh _ _
    exact ⟨exh, rfl, fun x hx => Or.inl hx⟩
  | cons se rest ih =>
    intro processed exh hdisj hnodup
    have hs : se.shardId ∉ exh := hdisj se (List.mem_cons_self _ _)
    rw [List.map_cons, List.nodup_cons] at hnodup
    cases hit : se.iterator with
    | error e =>
      rw [run_iter_err _ _ _ _ _ hit]
      rw [runExh_iteratorFailed _ _ _ hs]
      exact ⟨exh, rfl, fun x hx => Or.inl hx⟩
    | ok c =>
      obtain ⟨ex1, hex1, hsub1⟩ :=
        loop_runExh cfg se.shardId se.fetches (some c) processed exh hs
      by_cases hout :
          (processShardLoop cfg se.shardId se.fetches (some c) processed).2.2 = .completed
      · rw [run_completed _ _ _ _ _ hit hout]
        rw [runExh_iteratorIssued _ _ _ hs, runExh_append, hex1]
        have hbind : (some ex1).bind
            (fun e => runExh e (processStreamRun cfg rest
              (processShardLoop cfg se.shardId se.fetches (some c) processed).2.1).1)
            = runExh ex1 (processStreamRun cfg rest
              (processShardLoop cfg se.shardId se.fetches (some c) processed).2.1).1 := rfl
        rw [hbind]
        have hdisj2 : ∀ se2 ∈ rest, se2.shardId ∉ ex1 := by
          intro se2 hm2 hc
          rcases hsub1 _ hc with h | h
          · exact hnodup.1 (h ▸ List.mem_map.mpr ⟨se2, hm2, rfl⟩)
          · exact hdisj se2 (List.mem_cons_of_mem _ hm2) h
        obtain ⟨ex2, hex2, hsub2⟩ := ih _ ex1 hdisj2 hnodup.2
        refine ⟨ex2, hex2, fun x hx => ?_⟩
        rcases hsub2 x hx with h | h
        · rcases hsub1 x h with h2 | h2
          · exact Or.inr (by rw [List.map_cons]; exact List.mem_cons.mpr (Or.inl h2))
          · exact Or.inl h2
        · exact Or.inr (by rw [List.map_cons]; exact List.mem_cons_of_mem _ h)
      · rw [run_aborted _ _ _ _ _ hit hout]
        rw [runExh_iteratorIssued _ _ _ hs]
        refine ⟨ex1, hex1, fun x hx => ?_⟩
        rcases hsub1 x hx with h | h
        · exact Or.inr (by rw [List.map_cons]; exact List.mem_cons.mpr (Or.inl h))
        · exact Or.inl h

/-- C4 configuration for the counterexample: `maxRecords = 1`. -/
def c4Config : StreamConfig := ⟨100, some 1, 1000, false⟩

/-- C4 environment: one shard whose single fetch returns two records and
no next cursor. -/
def c4Env : List ShardEnv :=
  [⟨0, .ok "c0", [⟨.ok ([⟨"r1"⟩, ⟨"r2"⟩], none), true⟩]⟩]

/-- Counterexample for C4: with `maxRecords = 1` the single handler
invocation receives a 2-record batch, so the cumulative count is 2 > 1 —
the claimed bound `≤ N` fails. -/
theorem C4_counterexample :
    c4Config.maxRecords = some 1
    ∧ totalHandled (processStream c4Config c4Env).1 = 2
    ∧ ¬ (totalHandled (processStream c4Config c4Env).1 ≤ 1) :=
  ⟨rfl, rfl, by decide⟩

/-- C4 amended: every handler invocation starts while the cumulative
processed count is strictly below `maxRecords = N` (the total may overshoot
by at most the final batch), and with distinct shard ids the processor
never issues or uses a cursor for an already-exhausted shard. -/
theorem C4_handler_below_max_and_no_reissue (cfg : StreamConfig) (N : Nat)
    (shards : List ShardEnv) (hN : cfg.maxRecords = some N)
    (hids : (shards.map ShardEnv.shardId).Nodup) :
    (∀ s n prior ok,
      StreamEvent.handlerCall s n prior ok ∈ (processStream cfg shards).1 → prior < N)
    ∧ checkNoReissue (processStream cfg shards).1 = true := by
  constructor
  · intro s n prior ok hmem
    exact run_handler_prior cfg N hN shards 0 s n prior ok hmem
  · obtain ⟨ex', hex, _⟩ :=
      run_runExh cfg shards 0 [] (fun se _ hc => List.not_mem_nil _ hc) hids
    unfold checkNoReissue processStream
    rw [hex]
    rfl

/-- Witness for the amended C4 at the concrete overshooting run. -/
theorem C4_witness :
    (∀ s n prior ok,
      StreamEvent.handlerCall s n prior ok ∈ (processStream c4Config c4Env).1 → prior < 1)
    ∧ checkNoReissue (processStream c4Config c4Env).1 = true :=
  C4_handler_below_max_and_no_reissue c4Config 1 c4Env rfl (by decide)

/-! ### C5: stopOnError policy on handler failures -/

theorem noFailedHandler_append (a b : List StreamEvent) :
    noFailedHandler (a ++ b) = (noFailedHandler a && noFailedHandler b) := by
  induction a with
  | nil => rfl
  | cons e es ih =>
    rw [List.cons_append]
    show ((match e with
      | .handlerCall _ _ _ ok => ok
      | _ => true) && noFailedHandler (es ++ b)) = _
    rw [ih]
    cases e <;> simp [noFailedHandler, Bool.and_assoc]

theorem aborts_append_of_noFailed (a b : List StreamEvent)
    (ha : noFailedHandler a = true) :
    abortsAfterHandlerFailure (a ++ b) = abortsAfterHandlerFailure b := by
  induction a with
  | nil => rfl
  | cons e es ih =>
    rw [List.cons_append]
    cases e with
    | handlerCall s n p ok =>
      have ha' : (ok && noFailedHandler es) = true := ha
      simp only [Bool.and_eq_true] at ha'
      obtain ⟨hok, hrest⟩ := ha'
      subst hok
      exact ih hrest
    | iteratorIssued s => exact ih ha
    | iteratorFailed s => exact ih ha
    | fetch s c n nx => exact ih ha
    | fetchError s c => exact ih ha
    | sleep s => exact ih ha

/-- Per-shard loop under `stopOnError = true`: a failed handler invocation
is always the final event, and a loop that did not fail has no failed
handler invocation at all. -/
theorem loop_aborts (cfg : StreamConfig) (sid : Nat) (fetches : List FetchResponse)
    (hstop : cfg.stopOnError = true) :
    ∀ (cursor : Option String) (processed : Nat),
      abortsAfterHandlerFailure (processShardLoop cfg sid fetches cursor processed).1 = true
      ∧ ((processShardLoop cfg sid fetches cursor processed).2.2 = .failed
         ∨ noFailedHandler (processShardLoop cfg sid fetches cursor processed).1 = true) := by
  induction fetches with
  | nil =>
    intro cursor processed
    cases cursor with
    | none => rw [loop_none]; exact ⟨rfl, Or.inr rfl⟩
    | some c =>
      cases hm : underMax processed cfg.maxRecords with
      | false => rw [loop_max _ _ _ _ _ hm]; exact ⟨rfl, Or.inr rfl⟩
      | true => rw [loop_empty _ _ _ _ hm]; exact ⟨rfl, Or.inr rfl⟩
  | cons fr rest ih =>
    intro cursor processed
    cases cursor with
    | none => rw [loop_none]; exact ⟨rfl, Or.inr rfl⟩
    | some c =>
      cases hm : underMax processed cfg.maxRecords with
      | false => rw [loop_max _ _ _ _ _ hm]; exact ⟨rfl, Or.inr rfl⟩
      | true =>
        cases hres : fr.result with
        | error e =>
          rw [loop_fetch_err_stop _ _ _ _ _ _ _ hm hres hstop]
          exact ⟨rfl, Or.inr rfl⟩
        | ok pr =>
          obtain ⟨records, next⟩ := pr
          by_cases hlen : records.length = 0
          · rw [loop_zero _ _ _ _ _ _ _ _ hm hres hlen]
            obtain ⟨ih1, ih2⟩ := ih next processed
            refine ⟨ih1, ?_⟩
            rcases ih2 with h | h
            · exact Or.inl h
            · exact Or.inr h
          · have hlen' : 0 < records.length := Nat.pos_of_ne_zero hlen
            cases hok : fr.handlerOk with
            | true =>
              rw [loop_handler_ok _ _ _ _ _ _ _ _ hm hres hlen' hok]
              obtain ⟨ih1, ih2⟩ := ih next (processed + records.length)
              refine ⟨ih1, ?_⟩
              rcases ih2 with h | h
              · exact Or.inl h
              · exact Or.inr (by
                  show (true && _) = true
                  rw [Bool.true_and]
                  exact h)
            | false =>
              rw [loop_handler_fail_stop _ _ _ _ _ _ _ _ hm hres hlen' hok hstop]
              exact ⟨rfl, Or.inl rfl⟩

/-- Whole run under `stopOnError = true`: a failed handler invocation is
always the final event of the run's trace. -/
theorem run_aborts_on_handler_failure (cfg : StreamConfig) (shards : List ShardEnv)
    (hstop : cfg.stopOnError = true) :
    ∀ (processed : Nat),
      abortsAfterHandlerFailure (processStreamRun cfg shards processed).1 = true
      ∧ ((processStreamRun cfg shards processed).2.2 = .failed
         ∨ noFailedHandler (processStreamRun cfg shards processed).1 = true) := by
  induction shards with
  | nil =>
    intro processed
    rw [run_nil]
    exact ⟨rfl, Or.inr rfl⟩
  | cons se rest ih =>
    intro processed
    cases hit : se.iterator with
    | error e =>
      rw [run_iter_err _ _ _ _ _ hit]
      exact ⟨rfl, Or.inr rfl⟩
    | ok c =>
      obtain ⟨hl1, hl2⟩ := loop_aborts cfg se.shardId se.fetches hstop (some c) processed
      by_cases hout :
          (processShardLoop cfg se.shardId se.fetches (some c) processed).2.2 = .completed
      · have hnf : noFailedHandler
            (processShardLoop cfg se.shardId se.fetches (some c) processed).1 = true := by
          rcases hl2 with h | h
          · rw [hout] at h; cases h
          · exact h
        rw [run_completed _ _ _ _ _ hit hout]
        obtain ⟨ih1, ih2⟩ := ih
          (processShardLoop cfg se.shardId se.fetches (some c) processed).2.1
        constructor
        · show abortsAfterHandlerFailure (_ ++ _) = true
          rw [aborts_append_of_noFailed _ _ hnf]
          exact ih1
        · rcases ih2 with h | h
          · exact Or.inl h
          · refine Or.inr ?_
            show (true && noFailedHandler (_ ++ _)) = true
            rw [Bool.true_and, noFailedHandler_append, hnf, Bool.true_and]
            exact h
      · rw [run_aborted _ _ _ _ _ hit hout]
        constructor
        · exact hl1
        · rcases hl2 with h | h
          · exact Or.inl h
          · refine Or.inr ?_
            show (true && _) = true
            rw [Bool.true_and]
            exact h

/-- C5 configuration and environment for the counterexample:
`stopOnError = false`, one shard, a first fetch whose handler fails. -/
def c5Config : StreamConfig := ⟨100, none, 1000, false⟩

def c5Env : List ShardEnv :=
  [⟨0, .ok "c0", [⟨.ok ([⟨"r1"⟩], some "c1"), false⟩, ⟨.ok ([⟨"r2"⟩], none), true⟩]⟩]

/-- Counterexample for C5: after the failed handler invocation (whose
batch came from the fetch at cursor `c0`), the processor's next fetch uses
the already-advanced cursor `c1`, not the same cursor `c0`. -/
theorem C5_counterexample :
    (processStream c5Config c5Env).1 =
      [.iteratorIssued 0, .fetch 0 "c0" 1 (some "c1"), .handlerCall 0 1 0 false,
       .fetch 0 "c1" 1 none, .handlerCall 0 1 0 true]
    ∧ ("c1" : String) ≠ "c0" :=
  ⟨rfl, by decide⟩

/-- C5 amended: with `stopOnError = true` a handler failure aborts the
whole run (it is the final event of the trace); with `stopOnError = false`
the error is logged and the loop continues polling from the *next* cursor
returned by the fetch whose batch failed (the cursor has already advanced
past the failed batch), with the processed count unchanged. -/
theorem C5_stopOnError_policy :
    (∀ (cfg : StreamConfig) (shards : List ShardEnv), cfg.stopOnError = true →
      abortsAfterHandlerFailure (processStream cfg shards).1 = true)
    ∧ (∀ (cfg : StreamConfig) (sid : Nat) (fr : FetchResponse)
        (rest : List FetchResponse) (c : String) (processed : Nat)
        (records : List StreamRecord) (next : Option String),
        cfg.stopOnError = false → fr.result = .ok (records, next) →
        0 < records.length → fr.handlerOk = false →
        underMax processed cfg.maxRecords = true →
        processShardLoop cfg sid (fr :: rest) (some c) processed =
          (StreamEvent.fetch sid c records.length next ::
              .handlerCall sid records.length processed false ::
              (processShardLoop cfg sid rest next processed).1,
           (processShardLoop cfg sid rest next processed).2)) := by
  constructor
  · intro cfg shards hstop
    exact (run_aborts_on_handler_failure cfg shards hstop 0).1
  · intro cfg sid fr rest c processed records next hstop hres hlen hok hm
    exact loop_handler_fail_cont cfg sid fr rest c processed records next hm hres hlen hok hstop

/-- Configuration with `stopOnError = true` for the C5 witness. -/
def c5StopConfig : StreamConfig := ⟨100, none, 1000, true⟩

/-- Witness for the amended C5 at concrete runs. -/
theorem C5_witness :
    abortsAfterHandlerFailure (processStream c5StopConfig c5Env).1 = true
    ∧ processShardLoop c5Config 0
        [⟨.ok ([⟨"r1"⟩], some "c1"), false⟩, ⟨.ok ([⟨"r2"⟩], none), true⟩]
        (some "c0") 0 =
      (StreamEvent.fetch 0 "c0" 1 (some "c1") ::
          .handlerCall 0 1 0 false ::
          (processShardLoop c5Config 0 [⟨.ok ([⟨"r2"⟩], none), true⟩] (some "c1") 0).1,
       (processShardLoop c5Config 0 [⟨.ok ([⟨"r2"⟩], none), true⟩] (some "c1") 0).2) :=
  ⟨C5_stopOnError_policy.1 c5StopConfig c5Env rfl,
   C5_stopOnError_policy.2 c5Config 0 ⟨.ok ([⟨"r1"⟩], some "c1"), false⟩
     [⟨.ok ([⟨"r2"⟩], none), true⟩] "c0" 0 [⟨"r1"⟩] (some "c1") rfl rfl
     (by decide) rfl rfl⟩

end DynDb
